import Mathlib

/-!
Verification development for the Omen input validator
(`src/modules/0_input/inputvalidator.py`).

Shallow embedding conventions:
* Python strings are modelled as `List Char` (or Lean `String` where
  only equality matters);
* Python `dict`s are association lists with distinct keys;
* machine floats are modelled as exact rationals `ℚ` (the values in
  play are decimal literals, and every comparison performed by the
  validator is order-theoretic, so the rational model is faithful);
* fallible operations return `Option`.

The development covers: the position grammar (`_POSITION_RE`,
`_validate_position_str`, `_positions_tuple`), the pydantic schema
constraints, `validate_semantics`, canonical JSON serialization
(`json.dumps` with `sort_keys=True`), SHA-256 fingerprinting
(`_spec_hash`) and the normalization step of `main`.
-/

namespace Omen

/-- ASCII part of the regex character class `\s` as matched by Python `re`. -/
def isWs (c : Char) : Bool :=
  c = ' ' || c = '\t' || c = '\n' || c = '\r' || c = '\x0b' || c = '\x0c'

/-- ASCII part of the regex character class `\d`. -/
def isDigit (c : Char) : Bool :=
  48 ≤ c.toNat && c.toNat ≤ 57

/-- `\s*`: greedily drop leading whitespace. -/
def skipWs (l : List Char) : List Char := l.dropWhile isWs

/-- One capture group `-?\d+(\.\d+)?` of `_POSITION_RE`, matched greedily;
returns the matched token and the unconsumed rest of the input.  (The
regex engine's backtracking never helps on this pattern: if the optional
fractional part starts — a `'.'` follows the integer digits — it must
complete, because a leftover `'.'` can never be matched by `\s*,` or
`\s*$`.) -/
def parseNumCore (t : List Char) : Option (List Char × List Char) :=
  let ds := t.takeWhile isDigit
  let l2 := t.dropWhile isDigit
  if ds = [] then none
  else if l2.head? = some '.' then
    let fs := l2.tail.takeWhile isDigit
    let l4 := l2.tail.dropWhile isDigit
    if fs = [] then none
    else some (ds ++ '.' :: fs, l4)
  else some (ds, l2)

def parseNum (l : List Char) : Option (List Char × List Char) :=
  if l.head? = some '-' then
    match parseNumCore l.tail with
    | none => none
    | some (g, r) => some ('-' :: g, r)
  else parseNumCore l

/-- `_POSITION_RE.match`: the full anchored pattern
`^\s*(G)\s*,\s*(G)\s*,\s*(G)\s*$` with `G = -?\d+(\.\d+)?`; on success
returns the three captured number tokens (groups 1, 3, 5). -/
def position_match (l : List Char) : Option (List Char × List Char × List Char) :=
  match parseNum (skipWs l) with
  | none => none
  | some (g1, r1) =>
    if (skipWs r1).head? = some ',' then
      match parseNum (skipWs (skipWs r1).tail) with
      | none => none
      | some (g2, r3) =>
        if (skipWs r3).head? = some ',' then
          match parseNum (skipWs (skipWs r3).tail) with
          | none => none
          | some (g3, r5) =>
            if skipWs r5 = [] then some (g1, g2, g3) else none
        else none
    else none

/-- `_validate_position_str`: accepts exactly when the regex matches
(the source raises `ValueError` otherwise; we model acceptance as a
Boolean). -/
def validate_position_str (l : List Char) : Bool :=
  (position_match l).isSome

/-- Numeric value of a run of ASCII digits. -/
def digitsVal (ds : List Char) : Nat :=
  ds.foldl (fun a c => 10 * a + (c.toNat - 48)) 0

/-- Python `float()` restricted to the token language of the regex
groups (`-?\d+(\.\d+)?`), producing the exact rational value; `none`
models `ValueError` on any other input shape. -/
def pyFloatAux (sq : ℚ) (t : List Char) : Option ℚ :=
  let ds := t.takeWhile isDigit
  let l2 := t.dropWhile isDigit
  if ds = [] then none
  else if l2.head? = some '.' then
    let fs := l2.tail.takeWhile isDigit
    let l4 := l2.tail.dropWhile isDigit
    if fs = [] then none
    else if l4 = [] then
      some (sq * ((digitsVal ds : ℚ) + (digitsVal fs : ℚ) / (10 : ℚ) ^ fs.length))
    else none
  else if l2 = [] then some (sq * (digitsVal ds : ℚ))
  else none

def pyFloat (g : List Char) : Option ℚ :=
  if g.head? = some '-' then pyFloatAux (-1) g.tail else pyFloatAux 1 g

/-- `_positions_tuple`: re-match the regex and convert the three groups
with `float()`; `none` models the `AssertionError`/`ValueError` paths. -/
def positions_tuple (pos : List Char) : Option (ℚ × ℚ × ℚ) :=
  match position_match pos with
  | none => none
  | some (g1, g2, g3) =>
    match pyFloat g1, pyFloat g2, pyFloat g3 with
    | some a, some b, some c => some (a, b, c)
    | _, _, _ => none

example : validate_position_str "1,2,3".data = true := by decide
example : validate_position_str "-1.5, 0, 10.25".data = true := by decide
example : validate_position_str "1,2".data = false := by decide
example : validate_position_str "a,b,c".data = false := by decide
example : validate_position_str "1,2,3,4".data = false := by decide
example : (positions_tuple "-1.5, 0, 10.25".data).isSome = true := by decide

/-! ### The position grammar, stated from the spec's words -/

/-- A (possibly empty) run of whitespace. -/
def IsWsRun (w : List Char) : Prop := ∀ c ∈ w, isWs c = true

/-- An unsigned decimal number: at least one digit, optional fractional
part introduced by a dot and containing at least one digit.  No
scientific exponent. -/
def IsUNumTok (t : List Char) : Prop :=
  ∃ ds fr, t = ds ++ fr ∧ ds ≠ [] ∧ (∀ c ∈ ds, isDigit c = true) ∧
    (fr = [] ∨ ∃ fd, fr = '.' :: fd ∧ fd ≠ [] ∧ ∀ c ∈ fd, isDigit c = true)

/-- A signed decimal number: optional minus sign followed by an
unsigned decimal number. -/
def IsNumTok (t : List Char) : Prop :=
  ∃ sgn u, t = sgn ++ u ∧ (sgn = [] ∨ sgn = ['-']) ∧ IsUNumTok u

/-- The accepted position grammar as worded in the specification:
optional leading/trailing whitespace, three signed decimal numbers
separated by commas, whitespace tolerated around the commas. -/
def PositionGrammar (l : List Char) : Prop :=
  ∃ w0 n1 w1 w2 n2 w3 w4 n3 w5,
    IsWsRun w0 ∧ IsNumTok n1 ∧ IsWsRun w1 ∧ IsWsRun w2 ∧ IsNumTok n2 ∧ IsWsRun w3 ∧
    IsWsRun w4 ∧ IsNumTok n3 ∧ IsWsRun w5 ∧
    l = w0 ++ n1 ++ w1 ++ ',' :: (w2 ++ n2 ++ w3 ++ ',' :: (w4 ++ n3 ++ w5))

/-! ### Generic list-scanning lemmas -/

lemma head?_ex {α : Type} {l : List α} {c : α} (h : l.head? = some c) : l = c :: l.tail := by
  cases l <;> simp_all

lemma takeWhile_append_of {p : Char → Bool} {a b : List Char}
    (ha : ∀ c ∈ a, p c = true) (hb : ∀ c, b.head? = some c → p c = false) :
    (a ++ b).takeWhile p = a ∧ (a ++ b).dropWhile p = b := by
  induction a with
  | nil =>
    simp only [List.nil_append]
    cases b with
    | nil => simp
    | cons c bs =>
      have hc : p c = false := hb c rfl
      simp [List.takeWhile_cons, List.dropWhile_cons, hc]
  | cons x xs ih =>
    have hx : p x = true := ha x (by simp)
    have ih' := ih (fun c hc => ha c (by simp [hc]))
    simp [List.takeWhile_cons, List.dropWhile_cons, hx, ih'.1, ih'.2]

lemma head_dropWhile {p : Char → Bool} (l : List Char) :
    ∀ c, (l.dropWhile p).head? = some c → p c = false := by
  induction l with
  | nil => intro c h; simp [List.dropWhile] at h
  | cons x xs ih =>
    intro c h
    by_cases px : p x = true
    · rw [List.dropWhile_cons, if_pos px] at h
      exact ih c h
    · rw [List.dropWhile_cons, if_neg px] at h
      simp at h
      rw [← h]
      exact Bool.eq_false_iff.mpr px

lemma skipWs_decomp (l : List Char) :
    ∃ w, l = w ++ skipWs l ∧ IsWsRun w := by
  refine ⟨l.takeWhile isWs, ?_, ?_⟩
  · rw [skipWs]; exact (List.takeWhile_append_dropWhile isWs l).symm
  · intro c hc; exact List.mem_takeWhile_imp hc

lemma skipWs_append_ws {w : List Char} (hw : IsWsRun w) (l : List Char) :
    skipWs (w ++ l) = skipWs l := by
  induction w with
  | nil => simp
  | cons x xs ih =>
    have hx : isWs x = true := hw x (by simp)
    have ih' := ih (fun c hc => hw c (by simp [hc]))
    simp only [List.cons_append, skipWs, List.dropWhile_cons, hx, if_pos]
    exact ih'

lemma skipWs_eq_self {l : List Char} (h : ∀ c, l.head? = some c → isWs c = false) :
    skipWs l = l := by
  cases l with
  | nil => rfl
  | cons x xs =>
    have hx : isWs x = false := h x rfl
    simp [skipWs, List.dropWhile_cons, hx]

lemma skipWs_ws_run {w : List Char} (hw : IsWsRun w) : skipWs w = [] := by
  have := skipWs_append_ws hw []
  simpa using this

/-! ### Character-class facts -/

lemma isWs_cases {c : Char} (h : isWs c = true) :
    c = ' ' ∨ c = '\t' ∨ c = '\n' ∨ c = '\r' ∨ c = '\x0b' ∨ c = '\x0c' := by
  simp only [isWs, Bool.or_eq_true, decide_eq_true_eq] at h
  tauto

lemma ws_not_digit {c : Char} (h : isWs c = true) : isDigit c = false := by
  rcases isWs_cases h with h | h | h | h | h | h <;> subst h <;> decide

lemma ws_ne_dot {c : Char} (h : isWs c = true) : c ≠ '.' := by
  rcases isWs_cases h with h | h | h | h | h | h <;> subst h <;> decide

lemma digit_not_ws {c : Char} (h : isDigit c = true) : isWs c = false := by
  by_contra hc
  have hw : isWs c = true := by
    cases hws : isWs c
    · exact absurd hws hc
    · rfl
  have := ws_not_digit hw
  rw [h] at this
  exact Bool.true_eq_false.mp this

lemma digit_ne_minus {c : Char} (h : isDigit c = true) : c ≠ '-' := by
  intro hc; subst hc; simp [isDigit] at h

lemma uNumTok_ne_nil {n : List Char} (hn : IsUNumTok n) : n ≠ [] := by
  obtain ⟨ds, fr, rfl, hds, _, _⟩ := hn
  intro h
  rw [List.append_eq_nil] at h
  exact hds h.1

lemma numTok_ne_nil {n : List Char} (hn : IsNumTok n) : n ≠ [] := by
  obtain ⟨sgn, u, rfl, _, hu⟩ := hn
  intro h
  rw [List.append_eq_nil] at h
  exact uNumTok_ne_nil hu h.2

lemma head?_append_left {α : Type} {n : List α} (x : List α) (h : n ≠ []) :
    (n ++ x).head? = n.head? := by
  cases n with
  | nil => exact absurd rfl h
  | cons a t => simp

lemma uNumTok_head_digit {n : List Char} (hn : IsUNumTok n) :
    ∀ c, n.head? = some c → isDigit c = true := by
  obtain ⟨ds, fr, rfl, hds, hdig, _⟩ := hn
  intro c hc
  cases ds with
  | nil => exact absurd rfl hds
  | cons d t =>
    simp at hc
    rw [← hc]
    exact hdig d (by simp)

lemma numTok_head_not_ws {n : List Char} (hn : IsNumTok n) :
    ∀ c, n.head? = some c → isWs c = false := by
  obtain ⟨sgn, u, rfl, hsgn, hu⟩ := hn
  intro c hc
  rcases hsgn with rfl | rfl
  · rw [List.nil_append] at hc
    exact digit_not_ws (uNumTok_head_digit hu c hc)
  · simp at hc
    rw [← hc]
    decide

/-- Heads that may legally follow a number token in the position
pattern: never a digit, never a dot. -/
def RestOk (r : List Char) : Prop :=
  ∀ c, r.head? = some c → isDigit c = false ∧ c ≠ '.'

lemma restOk_ws_comma {w : List Char} (hw : IsWsRun w) (t : List Char) :
    RestOk (w ++ ',' :: t) := by
  intro c hc
  cases w with
  | nil =>
    simp at hc
    rw [← hc]
    exact ⟨by decide, by decide⟩
  | cons x xs =>
    simp at hc
    rw [← hc]
    have hx : isWs x = true := hw x (by simp)
    exact ⟨ws_not_digit hx, ws_ne_dot hx⟩

lemma restOk_ws {w : List Char} (hw : IsWsRun w) : RestOk w := by
  intro c hc
  cases w with
  | nil => simp at hc
  | cons x xs =>
    simp at hc
    rw [← hc]
    have hx : isWs x = true := hw x (by simp)
    exact ⟨ws_not_digit hx, ws_ne_dot hx⟩

/-! ### Soundness and completeness of the number-token parser -/

lemma parseNumCore_sound {t g r : List Char} (h : parseNumCore t = some (g, r)) :
    t = g ++ r ∧ IsUNumTok g := by
  unfold parseNumCore at h
  simp only at h
  have ht : t.takeWhile isDigit ++ t.dropWhile isDigit = t :=
    List.takeWhile_append_dropWhile isDigit t
  by_cases h1 : t.takeWhile isDigit = []
  · rw [if_pos h1] at h
    exact absurd h (by simp)
  · rw [if_neg h1] at h
    by_cases h2 : (t.dropWhile isDigit).head? = some '.'
    · rw [if_pos h2] at h
      by_cases h3 : (t.dropWhile isDigit).tail.takeWhile isDigit = []
      · rw [if_pos h3] at h
        exact absurd h (by simp)
      · rw [if_neg h3] at h
        simp only [Option.some.injEq, Prod.mk.injEq] at h
        obtain ⟨hg, hr⟩ := h
        have hdot : t.dropWhile isDigit = '.' :: (t.dropWhile isDigit).tail :=
          head?_ex h2
        have ht2 : ((t.dropWhile isDigit).tail.takeWhile isDigit) ++
            ((t.dropWhile isDigit).tail.dropWhile isDigit) =
            (t.dropWhile isDigit).tail :=
          List.takeWhile_append_dropWhile isDigit (t.dropWhile isDigit).tail
        constructor
        · rw [← hg, ← hr]
          conv_lhs => rw [← ht, hdot, ← ht2]
          simp
        · refine ⟨t.takeWhile isDigit,
            '.' :: (t.dropWhile isDigit).tail.takeWhile isDigit, ?_, h1,
            fun c hc => List.mem_takeWhile_imp hc,
            Or.inr ⟨(t.dropWhile isDigit).tail.takeWhile isDigit, rfl, h3,
              fun c hc => List.mem_takeWhile_imp hc⟩⟩
          rw [← hg]
    · rw [if_neg h2] at h
      simp only [Option.some.injEq, Prod.mk.injEq] at h
      obtain ⟨hg, hr⟩ := h
      constructor
      · rw [← hg, ← hr]; exact ht.symm
      · exact ⟨t.takeWhile isDigit, [], by rw [← hg]; simp, h1,
          fun c hc => List.mem_takeWhile_imp hc, Or.inl rfl⟩

lemma parseNum_sound {l g r : List Char} (h : parseNum l = some (g, r)) :
    l = g ++ r ∧ IsNumTok g := by
  unfold parseNum at h
  split_ifs at h with hs
  · cases hc : parseNumCore l.tail with
    | none => rw [hc] at h; exact absurd h (by simp)
    | some p =>
      obtain ⟨g0, r0⟩ := p
      rw [hc] at h
      simp only [Option.some.injEq, Prod.mk.injEq] at h
      obtain ⟨hg, hr⟩ := h
      obtain ⟨heq, hu⟩ := parseNumCore_sound hc
      constructor
      · rw [head?_ex hs, heq, ← hg, ← hr]; simp
      · exact ⟨['-'], g0, by rw [← hg]; simp, Or.inr rfl, hu⟩
  · obtain ⟨heq, hu⟩ := parseNumCore_sound h
    exact ⟨heq, [], g, by simp, Or.inl rfl, hu⟩

lemma parseNumCore_complete {u r : List Char} (hu : IsUNumTok u) (hr : RestOk r) :
    parseNumCore (u ++ r) = some (u, r) := by
  obtain ⟨ds, fr, rfl, hds, hdig, hfr⟩ := hu
  rw [List.append_assoc]
  unfold parseNumCore
  simp only
  have hb : ∀ c, (fr ++ r).head? = some c → isDigit c = false := by
    rcases hfr with rfl | ⟨fd, hfr', _, _⟩
    · intro c hc
      rw [List.nil_append] at hc
      exact (hr c hc).1
    · subst hfr'
      intro c hc
      simp at hc
      rw [← hc]
      decide
  obtain ⟨htake, hdrop⟩ := takeWhile_append_of hdig hb
  rw [htake, hdrop, if_neg hds]
  rcases hfr with rfl | ⟨fd, hfr', hfd, hfdig⟩
  · have hnb : ¬ ((([] : List Char) ++ r).head? = some '.') := by
      intro hcon
      rw [List.nil_append] at hcon
      exact (hr '.' hcon).2 rfl
    rw [if_neg hnb]
    simp
  · subst hfr'
    simp only [List.cons_append]
    rw [if_pos (by simp)]
    simp only [List.tail_cons]
    obtain ⟨htake2, hdrop2⟩ :=
      takeWhile_append_of hfdig (fun c hc => (hr c hc).1)
    rw [htake2, hdrop2, if_neg hfd]

lemma parseNum_complete {n r : List Char} (hn : IsNumTok n) (hr : RestOk r) :
    parseNum (n ++ r) = some (n, r) := by
  obtain ⟨sgn, u, rfl, hsgn, hu⟩ := hn
  rcases hsgn with rfl | rfl
  · rw [List.nil_append]
    unfold parseNum
    have hnm : ¬ ((u ++ r).head? = some '-') := by
      intro hcon
      rw [head?_append_left r (uNumTok_ne_nil hu)] at hcon
      have := uNumTok_head_digit hu '-' hcon
      simp [isDigit] at this
    rw [if_neg hnm]
    exact parseNumCore_complete hu hr
  · have hshape : (['-'] ++ u) ++ r = '-' :: (u ++ r) := by simp
    rw [hshape]
    unfold parseNum
    rw [if_pos (by simp)]
    simp only [List.tail_cons]
    rw [parseNumCore_complete hu hr]
    simp

lemma pyFloat_isSome {n : List Char} (hn : IsNumTok n) : (pyFloat n).isSome = true := by
  obtain ⟨sgn, u, rfl, hsgn, hu⟩ := hn
  obtain ⟨ds, fr, hfr', hds, hdig, hfr⟩ := hu
  subst hfr'
  have hb : ∀ c, fr.head? = some c → isDigit c = false := by
    rcases hfr with rfl | ⟨fd, hfr', _, _⟩
    · intro c hc; simp at hc
    · subst hfr'
      intro c hc
      simp at hc
      rw [← hc]
      decide
  obtain ⟨htake, hdrop⟩ := takeWhile_append_of hdig hb
  have core : ∀ sq : ℚ, (pyFloatAux sq (ds ++ fr)).isSome = true := by
    intro sq
    unfold pyFloatAux
    simp only
    rw [htake, hdrop, if_neg hds]
    rcases hfr with rfl | ⟨fd, hfr', hfd, hfdig⟩
    · rw [if_neg (by simp), if_pos rfl]
      simp
    · subst hfr'
      rw [if_pos (by simp)]
      simp only [List.tail_cons]
      obtain ⟨htake2, hdrop2⟩ :=
        @takeWhile_append_of _ _ [] hfdig (fun c hc => by simp at hc)
      rw [List.append_nil] at htake2 hdrop2
      rw [htake2, hdrop2, if_neg hfd, if_pos rfl]
      simp
  rcases hsgn with rfl | rfl
  · rw [List.nil_append]
    unfold pyFloat
    have hnm : ¬ ((ds ++ fr).head? = some '-') := by
      intro hcon
      rw [head?_append_left fr hds] at hcon
      cases ds with
      | nil => exact hds rfl
      | cons d t =>
        simp at hcon
        have := hdig d (by simp)
        rw [hcon] at this
        simp [isDigit] at this
    rw [if_neg hnm]
    exact core 1
  · unfold pyFloat
    rw [if_pos (by simp)]
    simp only [List.cons_append, List.tail_cons]
    exact core (-1)

/-! ### The recognizer decides exactly the position grammar -/

lemma skipWs_comma (t : List Char) : skipWs (',' :: t) = ',' :: t :=
  skipWs_eq_self (fun c hc => by simp at hc; rw [← hc]; decide)

lemma position_match_sound {l g1 g2 g3 : List Char}
    (h : position_match l = some (g1, g2, g3)) :
    IsNumTok g1 ∧ IsNumTok g2 ∧ IsNumTok g3 ∧ PositionGrammar l := by
  unfold position_match at h
  cases hp1 : parseNum (skipWs l) with
  | none => rw [hp1] at h; exact absurd h (by simp)
  | some pr1 =>
    obtain ⟨n1, r1⟩ := pr1
    rw [hp1] at h
    simp only at h
    by_cases hc1 : (skipWs r1).head? = some ','
    · rw [if_pos hc1] at h
      cases hp2 : parseNum (skipWs (skipWs r1).tail) with
      | none => rw [hp2] at h; exact absurd h (by simp)
      | some pr2 =>
        obtain ⟨n2, r3⟩ := pr2
        rw [hp2] at h
        simp only at h
        by_cases hc2 : (skipWs r3).head? = some ','
        · rw [if_pos hc2] at h
          cases hp3 : parseNum (skipWs (skipWs r3).tail) with
          | none => rw [hp3] at h; exact absurd h (by simp)
          | some pr3 =>
            obtain ⟨n3, r5⟩ := pr3
            rw [hp3] at h
            simp only at h
            by_cases hend : skipWs r5 = []
            · rw [if_pos hend] at h
              simp only [Option.some.injEq, Prod.mk.injEq] at h
              obtain ⟨hg1, hg2, hg3⟩ := h
              subst hg1; subst hg2; subst hg3
              obtain ⟨e2, ht1⟩ := parseNum_sound hp1
              obtain ⟨e6, ht2⟩ := parseNum_sound hp2
              obtain ⟨e10, ht3⟩ := parseNum_sound hp3
              refine ⟨ht1, ht2, ht3, ?_⟩
              obtain ⟨w0, e1, hw0⟩ := skipWs_decomp l
              obtain ⟨w1, e3, hw1⟩ := skipWs_decomp r1
              have e4 : skipWs r1 = ',' :: (skipWs r1).tail := head?_ex hc1
              obtain ⟨w2, e5, hw2⟩ := skipWs_decomp (skipWs r1).tail
              obtain ⟨w3, e7, hw3⟩ := skipWs_decomp r3
              have e8 : skipWs r3 = ',' :: (skipWs r3).tail := head?_ex hc2
              obtain ⟨w4, e9, hw4⟩ := skipWs_decomp (skipWs r3).tail
              obtain ⟨w5, e11, hw5⟩ := skipWs_decomp r5
              have hr5 : r5 = w5 := by rw [hend, List.append_nil] at e11; exact e11
              have hw5' : IsWsRun r5 := by rw [hr5]; exact hw5
              have h1 := e1
              rw [e2] at h1
              rw [e3] at h1
              rw [e4] at h1
              rw [e5] at h1
              rw [e6] at h1
              rw [e7] at h1
              rw [e8] at h1
              rw [e9] at h1
              rw [e10] at h1
              refine ⟨w0, n1, w1, w2, n2, w3, w4, n3, r5,
                hw0, ht1, hw1, hw2, ht2, hw3, hw4, ht3, hw5', ?_⟩
              rw [h1]
              simp [List.append_assoc]
            · rw [if_neg hend] at h
              exact absurd h (by simp)
        · rw [if_neg hc2] at h
          exact absurd h (by simp)
    · rw [if_neg hc1] at h
      exact absurd h (by simp)

lemma grammar_match {l : List Char} (h : PositionGrammar l) :
    (position_match l).isSome = true := by
  obtain ⟨w0, n1, w1, w2, n2, w3, w4, n3, w5,
    hw0, hn1, hw1, hw2, hn2, hw3, hw4, hn3, hw5, rfl⟩ := h
  have e0 : skipWs (n1 ++ (w1 ++ ',' :: (w2 ++ (n2 ++ (w3 ++ ',' :: (w4 ++ (n3 ++ w5))))))) =
      n1 ++ (w1 ++ ',' :: (w2 ++ (n2 ++ (w3 ++ ',' :: (w4 ++ (n3 ++ w5)))))) :=
    skipWs_eq_self (fun c hc => numTok_head_not_ws hn1 c
      (by rwa [head?_append_left _ (numTok_ne_nil hn1)] at hc))
  have e2 : skipWs (n2 ++ (w3 ++ ',' :: (w4 ++ (n3 ++ w5)))) =
      n2 ++ (w3 ++ ',' :: (w4 ++ (n3 ++ w5))) :=
    skipWs_eq_self (fun c hc => numTok_head_not_ws hn2 c
      (by rwa [head?_append_left _ (numTok_ne_nil hn2)] at hc))
  have e3 : skipWs (n3 ++ w5) = n3 ++ w5 :=
    skipWs_eq_self (fun c hc => numTok_head_not_ws hn3 c
      (by rwa [head?_append_left _ (numTok_ne_nil hn3)] at hc))
  have p1 := parseNum_complete hn1 (restOk_ws_comma hw1 (w2 ++ (n2 ++ (w3 ++ ',' :: (w4 ++ (n3 ++ w5))))))
  have p2 := parseNum_complete hn2 (restOk_ws_comma hw3 (w4 ++ (n3 ++ w5)))
  have p3 := parseNum_complete hn3 (restOk_ws hw5)
  unfold position_match
  simp only [List.append_assoc, List.cons_append]
  rw [skipWs_append_ws hw0, e0, p1]
  simp only
  rw [skipWs_append_ws hw1, skipWs_comma]
  simp only [List.head?_cons]
  rw [if_pos trivial]
  simp only [List.tail_cons]
  rw [skipWs_append_ws hw2, e2, p2]
  simp only
  rw [skipWs_append_ws hw3, skipWs_comma]
  simp only [List.head?_cons]
  rw [if_pos trivial]
  simp only [List.tail_cons]
  rw [skipWs_append_ws hw4, e3, p3]
  simp only
  rw [skipWs_ws_run hw5, if_pos rfl]
  simp

/-- C7 core equivalence: the regex recognizer accepts exactly the
strings of the position grammar. -/
lemma validate_position_str_iff {l : List Char} :
    validate_position_str l = true ↔ PositionGrammar l := by
  constructor
  · intro h
    unfold validate_position_str at h
    cases hm : position_match l with
    | none => rw [hm] at h; exact absurd h (by simp)
    | some g =>
      obtain ⟨g1, g2, g3⟩ := g
      exact (position_match_sound hm).2.2.2
  · intro h
    exact grammar_match h

/-- C9 core: on any string the regex accepts, `_positions_tuple`
succeeds (the `float()` conversions cannot fail on regex groups). -/
lemma positions_tuple_isSome {l : List Char} (h : validate_position_str l = true) :
    (positions_tuple l).isSome = true := by
  unfold validate_position_str at h
  cases hm : position_match l with
  | none => rw [hm] at h; exact absurd h (by simp)
  | some g =>
    obtain ⟨g1, g2, g3⟩ := g
    obtain ⟨ht1, ht2, ht3, _⟩ := position_match_sound hm
    unfold positions_tuple
    rw [hm]
    simp only
    obtain ⟨v1, hv1⟩ := Option.isSome_iff_exists.mp (pyFloat_isSome ht1)
    obtain ⟨v2, hv2⟩ := Option.isSome_iff_exists.mp (pyFloat_isSome ht2)
    obtain ⟨v3, hv3⟩ := Option.isSome_iff_exists.mp (pyFloat_isSome ht3)
    rw [hv1, hv2, hv3]
    simp

/-! ### Schema data model (the pydantic classes) -/

structure Meta where
  backend : String
  name : String
  duration_s : Int
deriving DecidableEq

structure PropagationModel where
  model : String
  exp : ℚ
  s : Option ℚ
deriving DecidableEq

structure Nets where
  noise_th : ℚ
  propagation_model : PropagationModel
deriving DecidableEq

structure AP where
  id : String
  mode : String
  channel : Int
  ssid : String
  position : String
deriving DecidableEq

structure Station where
  id : String
  position : String
deriving DecidableEq

structure Topology where
  nets : Nets
  aps : List AP
  stations : List Station
deriving DecidableEq

structure TestMove where
  name : String
  timeframe : Int
  node : String
  position : String
deriving DecidableEq

structure TestIw where
  name : String
  cmd : String
deriving DecidableEq

inductive TestVariant where
  | move (m : TestMove)
  | iw (t : TestIw)
deriving DecidableEq

structure Spec where
  schemaVersion : String
  meta : Meta
  topo : Topology
  tests : List TestVariant
  username : String
  password : String
  address : String
deriving DecidableEq

/-! ### Schema validation (pydantic field bounds and model validators) -/

/-- The pydantic validator of `PropagationModel`: the `model` literal,
the field bound `exp > 0`, and the `_require_s_for_lns` model validator
(`s` present and `> 0` required exactly when
`model = 'logNormalShadowing'`). -/
def pmValid (pm : PropagationModel) : Bool :=
  (pm.model = "logDistance" || pm.model = "logNormalShadowing") &&
  decide (0 < pm.exp) &&
  (if pm.model = "logNormalShadowing" then
    match pm.s with
    | none => false
    | some v => decide (0 < v)
  else true)

def metaValid (m : Meta) : Bool :=
  (m.backend = "mininet" || m.backend = "mininet-wifi") &&
  decide (1 ≤ m.name.length) && decide (m.name.length ≤ 64) &&
  decide (0 < m.duration_s)

def netsValid (n : Nets) : Bool :=
  decide (n.noise_th ≤ 0) && pmValid n.propagation_model

def apValid (a : AP) : Bool :=
  decide (1 ≤ a.id.length) &&
  (a.mode = "a" || a.mode = "b" || a.mode = "g" || a.mode = "n" ||
    a.mode = "ac" || a.mode = "ax") &&
  decide (0 < a.channel) &&
  decide (1 ≤ a.ssid.length) && decide (a.ssid.length ≤ 32) &&
  validate_position_str a.position.data

def stationValid (s : Station) : Bool :=
  decide (1 ≤ s.id.length) && validate_position_str s.position.data

def testValid (t : TestVariant) : Bool :=
  match t with
  | .move m => decide (0 ≤ m.timeframe) && validate_position_str m.position.data
  | .iw _ => true

/-- `Spec(**data)` succeeded: every pydantic field constraint holds. -/
def specValid (s : Spec) : Bool :=
  metaValid s.meta && netsValid s.topo.nets &&
  s.topo.aps.all apValid && s.topo.stations.all stationValid &&
  s.tests.all testValid

/-! ### Semantic validation -/

/-- An error/warning record `{loc, code, msg}`. -/
structure VRec where
  loc : String
  code : String
  msg : String
deriving DecidableEq

/-- Python's substring test `needle in hay`. -/
def containsSub (n : List Char) : List Char → Bool
  | [] => n.isEmpty
  | c :: h => n.isPrefixOf (c :: h) || containsSub n h

/-- Deterministic rendering of a rational (stand-in for Python float
formatting inside a warning message; only determinism matters). -/
def ratStr (q : ℚ) : String :=
  if q.den = 1 then toString q.num else toString q.num ++ "/" ++ toString q.den

def dupIdErr : VRec :=
  ⟨"topo.[aps|stations].id", "duplicate_id", "duplicate node IDs across APs and Stations"⟩

def apErrsAt (i : Nat) (a : AP) : List VRec :=
  (if (positions_tuple a.position.data).isSome then [] else
    [⟨"topo.aps[" ++ toString i ++ "].position", "bad_position",
      "cannot parse 'x,y,z' as floats"⟩]) ++
  (if a.mode = "a" && decide (a.channel ≤ 0) then
    [⟨"topo.aps[" ++ toString i ++ "].channel", "bad_channel",
      "5GHz channel must be a positive integer (e.g., 36)"⟩]
  else [])

def staErrsAt (i : Nat) (s : Station) : List VRec :=
  if (positions_tuple s.position.data).isSome then [] else
    [⟨"topo.stations[" ++ toString i ++ "].position", "bad_position",
      "cannot parse 'x,y,z' as floats"⟩]

def unknownStationErr (i : Nat) (t : TestMove) : VRec :=
  ⟨"tests[" ++ toString i ++ "].node", "unknown_station",
    "'" ++ t.node ++ "' is not a known station id"⟩

def nonMonoWarn (i : Nat) (t : TestMove) (prev : Int) : VRec :=
  ⟨"tests[" ++ toString i ++ "].timeframe", "non_monotonic_timeframe",
    "timeframe " ++ toString t.timeframe ++ " for " ++ t.node ++
    " is less than previous " ++ toString prev ++ "; check ordering"⟩

def missingPlaceholderWarn (i : Nat) (_t : TestIw) : VRec :=
  ⟨"tests[" ++ toString i ++ "].cmd", "missing_placeholder",
    "cmd does not include '{interface}' placeholder"⟩

/-- One iteration of the tests loop of `validate_semantics`: the
accumulator is (errors, warnings, per-station last timeframe map). -/
def testsStep (staIds : List String)
    (acc : List VRec × List VRec × (String → Int)) (p : Nat × TestVariant) :
    List VRec × List VRec × (String → Int) :=
  match p.2 with
  | .move t =>
    let errs := acc.1 ++ (if t.node ∈ staIds then [] else [unknownStationErr p.1 t])
    let prev := acc.2.2 t.node
    let warns := acc.2.1 ++ (if decide (prev > t.timeframe) then [nonMonoWarn p.1 t prev] else [])
    (errs, warns, fun k => if k = t.node then max prev t.timeframe else acc.2.2 k)
  | .iw t =>
    (acc.1,
     acc.2.1 ++ (if containsSub "{interface}".data t.cmd.data then []
       else [missingPlaceholderWarn p.1 t]),
     acc.2.2)

def backendWarns (s : Spec) : List VRec :=
  if s.meta.backend = "mininet" && (!s.topo.aps.isEmpty || !s.topo.stations.isEmpty) then
    [⟨"meta.backend", "backend_role_mismatch",
      "APs/stations present but backend='mininet'. Use 'mininet-wifi' for Wi-Fi behavior."⟩]
  else []

def noiseWarns (s : Spec) : List VRec :=
  if decide (s.topo.nets.noise_th > -30) then
    [⟨"topo.nets.noise_th", "suspicious_noise_th",
      "noise_th " ++ ratStr s.topo.nets.noise_th ++ " dBm is unusually high (less negative)"⟩]
  else []

/-- `validate_semantics`: returns (errors, warnings) in emission order. -/
def validate_semantics (spec : Spec) : List VRec × List VRec :=
  let ap_ids := spec.topo.aps.map AP.id
  let sta_ids := spec.topo.stations.map Station.id
  let all_ids := ap_ids ++ sta_ids
  let dupErrs : List VRec :=
    if all_ids.length ≠ all_ids.dedup.length then [dupIdErr] else []
  let apErrs := (spec.topo.aps.enum.map (fun p => apErrsAt p.1 p.2)).flatten
  let staErrs := (spec.topo.stations.enum.map (fun p => staErrsAt p.1 p.2)).flatten
  let res := spec.tests.enum.foldl (testsStep sta_ids)
    (dupErrs ++ apErrs ++ staErrs, [], fun _ => -1)
  (res.1, res.2.1 ++ backendWarns spec ++ noiseWarns spec)

/-- `ok` as computed by `main`: no semantic errors. -/
def spec_ok (s : Spec) : Bool := (validate_semantics s).1.isEmpty

/-! ### Characterization of the tests loop -/

/-- Errors contributed by the tests loop, recursively. -/
def errsFrom (staIds : List String) : Nat → List TestVariant → List VRec
  | _, [] => []
  | n, .move t :: rest =>
    (if t.node ∈ staIds then [] else [unknownStationErr n t]) ++ errsFrom staIds (n + 1) rest
  | n, .iw _ :: rest => errsFrom staIds (n + 1) rest

/-- State update of one loop iteration (`last_tf[t.node] = max(prev, tf)`). -/
def stepState : TestVariant → (String → Int) → (String → Int)
  | .move t, m => fun k => if k = t.node then max (m t.node) t.timeframe else m k
  | .iw _, m => m

/-- Warnings contributed by the tests loop, recursively, threading the
per-station running maximum. -/
def warnsFrom : Nat → (String → Int) → List TestVariant → List VRec
  | _, _, [] => []
  | n, m, .move t :: rest =>
    (if decide (m t.node > t.timeframe) then [nonMonoWarn n t (m t.node)] else []) ++
      warnsFrom (n + 1) (stepState (.move t) m) rest
  | n, m, .iw t :: rest =>
    (if containsSub "{interface}".data t.cmd.data then [] else [missingPlaceholderWarn n t]) ++
      warnsFrom (n + 1) m rest

/-- Final per-station running maximum after processing a list of tests. -/
def stateAfter : (String → Int) → List TestVariant → (String → Int)
  | m, [] => m
  | m, tv :: rest => stateAfter (stepState tv m) rest

lemma tests_fold_eq (staIds : List String) :
    ∀ (tests : List TestVariant) (n : Nat) (accE accW : List VRec) (m : String → Int),
      (List.enumFrom n tests).foldl (testsStep staIds) (accE, accW, m) =
        (accE ++ errsFrom staIds n tests, accW ++ warnsFrom n m tests, stateAfter m tests) := by
  intro tests
  induction tests with
  | nil =>
    intro n accE accW m
    simp [List.enumFrom, errsFrom, warnsFrom, stateAfter]
  | cons tv rest ih =>
    intro n accE accW m
    cases tv with
    | move t =>
      simp only [List.enumFrom, List.foldl_cons, testsStep, errsFrom, warnsFrom, stateAfter,
        stepState]
      rw [ih]
      simp [List.append_assoc]
    | iw t =>
      simp only [List.enumFrom, List.foldl_cons, testsStep, errsFrom, warnsFrom, stateAfter,
        stepState]
      rw [ih]
      simp [List.append_assoc]

/-- `validate_semantics` in fully unfolded form. -/
lemma validate_semantics_eq (spec : Spec) :
    validate_semantics spec =
      ((if ((spec.topo.aps.map AP.id) ++ (spec.topo.stations.map Station.id)).length ≠
          ((spec.topo.aps.map AP.id) ++ (spec.topo.stations.map Station.id)).dedup.length
        then [dupIdErr] else []) ++
        (spec.topo.aps.enum.map (fun p => apErrsAt p.1 p.2)).flatten ++
        (spec.topo.stations.enum.map (fun p => staErrsAt p.1 p.2)).flatten ++
        errsFrom (spec.topo.stations.map Station.id) 0 spec.tests,
       warnsFrom 0 (fun _ => -1) spec.tests ++ backendWarns spec ++ noiseWarns spec) := by
  unfold validate_semantics
  simp only
  have he : spec.tests.enum = List.enumFrom 0 spec.tests := rfl
  rw [he, tests_fold_eq]
  simp [List.append_assoc]

/-- Timeframes of the Move actions targeting a given station, in order. -/
def moveTfs (tests : List TestVariant) (node : String) : List Int :=
  tests.filterMap (fun tv =>
    match tv with
    | .move t => if t.node = node then some t.timeframe else none
    | .iw _ => none)

lemma foldMax_cons_step (tv : TestVariant) (m : String → Int) (node : String)
    (l : List TestVariant) :
    List.foldl max (m node) (moveTfs (tv :: l) node) =
      List.foldl max (stepState tv m node) (moveTfs l node) := by
  cases tv with
  | move t =>
    by_cases h : t.node = node
    · subst h
      simp [moveTfs, List.filterMap_cons, stepState]
    · have h' : ¬ (node = t.node) := fun hc => h hc.symm
      simp [moveTfs, List.filterMap_cons, stepState, h, h']
  | iw t => simp [moveTfs, List.filterMap_cons, stepState]

/-- C5 support: the loop's per-station state really is the running
maximum (with sentinel start) of the Move timeframes seen so far. -/
lemma stateAfter_eq :
    ∀ (tests : List TestVariant) (m : String → Int) (node : String),
      stateAfter m tests node = List.foldl max (m node) (moveTfs tests node) := by
  intro tests
  induction tests with
  | nil => intro m node; simp [stateAfter, moveTfs]
  | cons tv rest ih =>
    intro m node
    show stateAfter (stepState tv m) rest node = _
    rw [ih, foldMax_cons_step]

lemma errsFrom_flat (staIds : List String) :
    ∀ (tests : List TestVariant) (n : Nat),
      errsFrom staIds n tests = (List.enumFrom n tests).flatMap (fun p =>
        match p.2 with
        | .move t => if t.node ∈ staIds then [] else [unknownStationErr p.1 t]
        | .iw _ => []) := by
  intro tests
  induction tests with
  | nil => intro n; simp [errsFrom, List.enumFrom]
  | cons tv rest ih =>
    intro n
    cases tv with
    | move t => simp [errsFrom, List.enumFrom, List.flatMap_cons, ih]
    | iw t => simp [errsFrom, List.enumFrom, List.flatMap_cons, ih]

lemma warnsFrom_flat :
    ∀ (tests : List TestVariant) (n : Nat) (m : String → Int),
      warnsFrom n m tests = (List.enumFrom n tests).flatMap (fun p =>
        match p.2 with
        | .move t =>
          if t.timeframe <
              List.foldl max (m t.node) (moveTfs (tests.take (p.1 - n)) t.node) then
            [nonMonoWarn p.1 t
              (List.foldl max (m t.node) (moveTfs (tests.take (p.1 - n)) t.node))]
          else []
        | .iw t =>
          if containsSub "{interface}".data t.cmd.data then []
          else [missingPlaceholderWarn p.1 t]) := by
  intro tests
  induction tests with
  | nil => intro n m; simp [warnsFrom, List.enumFrom]
  | cons tv rest ih =>
    intro n m
    have hcong : ∀ p ∈ List.enumFrom (n + 1) rest,
        (fun (p : Nat × TestVariant) =>
          match p.2 with
          | .move t =>
            if t.timeframe <
                List.foldl max ((stepState tv m) t.node)
                  (moveTfs (rest.take (p.1 - (n + 1))) t.node) then
              [nonMonoWarn p.1 t
                (List.foldl max ((stepState tv m) t.node)
                  (moveTfs (rest.take (p.1 - (n + 1))) t.node))]
            else []
          | .iw t =>
            if containsSub "{interface}".data t.cmd.data then []
            else [missingPlaceholderWarn p.1 t]) p =
        (fun (p : Nat × TestVariant) =>
          match p.2 with
          | .move t =>
            if t.timeframe <
                List.foldl max (m t.node) (moveTfs ((tv :: rest).take (p.1 - n)) t.node) then
              [nonMonoWarn p.1 t
                (List.foldl max (m t.node) (moveTfs ((tv :: rest).take (p.1 - n)) t.node))]
            else []
          | .iw t =>
            if containsSub "{interface}".data t.cmd.data then []
            else [missingPlaceholderWarn p.1 t]) p := by
      intro p hp
      have hge : n + 1 ≤ p.1 := (List.mem_enumFrom hp).1
      have htake : (tv :: rest).take (p.1 - n) = tv :: rest.take (p.1 - (n + 1)) := by
        have : p.1 - n = (p.1 - (n + 1)) + 1 := by omega
        rw [this, List.take_succ_cons]
      cases hp2 : p.2 with
      | move t =>
        simp only [hp2, htake, foldMax_cons_step]
      | iw t => simp only [hp2]
    cases tv with
    | move t =>
      show (if decide (m t.node > t.timeframe) then [nonMonoWarn n t (m t.node)] else []) ++
          warnsFrom (n + 1) (stepState (.move t) m) rest = _
      rw [ih]
      show _ = (List.enumFrom n (TestVariant.move t :: rest)).flatMap _
      rw [show List.enumFrom n (TestVariant.move t :: rest) =
        (n, TestVariant.move t) :: List.enumFrom (n + 1) rest from rfl]
      rw [List.flatMap_cons]
      congr 1
      · simp only [Nat.sub_self, List.take_zero]
        show _ = if t.timeframe < List.foldl max (m t.node) (moveTfs [] t.node) then _ else _
        simp only [moveTfs, List.filterMap_nil, List.foldl_nil]
        by_cases hlt : m t.node > t.timeframe
        · rw [if_pos (by exact_mod_cast decide_eq_true hlt), if_pos hlt]
        · rw [if_neg (by simp [hlt]), if_neg hlt]
      · unfold List.flatMap
        rw [List.map_congr_left hcong]
    | iw t =>
      show (if containsSub "{interface}".data t.cmd.data then []
          else [missingPlaceholderWarn n t]) ++ warnsFrom (n + 1) m rest = _
      rw [ih]
      rw [show List.enumFrom n (TestVariant.iw t :: rest) =
        (n, TestVariant.iw t) :: List.enumFrom (n + 1) rest from rfl]
      rw [List.flatMap_cons]
      congr 1
      unfold List.flatMap
      have hcong2 : ∀ p ∈ List.enumFrom (n + 1) rest,
          (fun (p : Nat × TestVariant) =>
            match p.2 with
            | .move tm =>
              if tm.timeframe <
                  List.foldl max (m tm.node) (moveTfs (rest.take (p.1 - (n + 1))) tm.node) then
                [nonMonoWarn p.1 tm
                  (List.foldl max (m tm.node) (moveTfs (rest.take (p.1 - (n + 1))) tm.node))]
              else []
            | .iw ti =>
              if containsSub "{interface}".data ti.cmd.data then []
              else [missingPlaceholderWarn p.1 ti]) p =
          (fun (p : Nat × TestVariant) =>
            match p.2 with
            | .move tm =>
              if tm.timeframe <
                  List.foldl max (m tm.node)
                    (moveTfs ((TestVariant.iw t :: rest).take (p.1 - n)) tm.node) then
                [nonMonoWarn p.1 tm
                  (List.foldl max (m tm.node)
                    (moveTfs ((TestVariant.iw t :: rest).take (p.1 - n)) tm.node))]
              else []
            | .iw ti =>
              if containsSub "{interface}".data ti.cmd.data then []
              else [missingPlaceholderWarn p.1 ti]) p := by
        intro p hp
        have hge : n + 1 ≤ p.1 := (List.mem_enumFrom hp).1
        have htake : (TestVariant.iw t :: rest).take (p.1 - n) =
            TestVariant.iw t :: rest.take (p.1 - (n + 1)) := by
          have : p.1 - n = (p.1 - (n + 1)) + 1 := by omega
          rw [this, List.take_succ_cons]
        cases hp2 : p.2 with
        | move tm =>
          have hmt : moveTfs ((TestVariant.iw t :: rest).take (p.1 - n)) tm.node =
              moveTfs (rest.take (p.1 - (n + 1))) tm.node := by
            rw [htake]
            simp [moveTfs, List.filterMap_cons]
          simp only [hp2, hmt]
        | iw ti => simp only [hp2]
      rw [List.map_congr_left hcong2]

/-! ### Error and warning code classification -/

lemma mem_errsFrom_code {staIds : List String} :
    ∀ {tests : List TestVariant} {n : Nat} {e : VRec},
      e ∈ errsFrom staIds n tests → e.code = "unknown_station" := by
  intro tests
  induction tests with
  | nil => intro n e h; simp [errsFrom] at h
  | cons tv rest ih =>
    intro n e h
    cases tv with
    | move t =>
      rw [show errsFrom staIds n (.move t :: rest) =
        (if t.node ∈ staIds then [] else [unknownStationErr n t]) ++
          errsFrom staIds (n + 1) rest from rfl] at h
      rcases List.mem_append.mp h with h | h
      · split_ifs at h
        · simp at h
        · simp at h
          rw [h]
          rfl
      · exact ih h
    | iw t =>
      rw [show errsFrom staIds n (.iw t :: rest) = errsFrom staIds (n + 1) rest from rfl] at h
      exact ih h

lemma mem_apErrsAt_code {i : Nat} {a : AP} {e : VRec} (h : e ∈ apErrsAt i a) :
    e.code = "bad_position" ∨ e.code = "bad_channel" := by
  unfold apErrsAt at h
  rcases List.mem_append.mp h with h | h
  · split_ifs at h
    · simp at h
    · simp at h
      rw [h]
      left
      rfl
  · split_ifs at h
    · simp at h
      rw [h]
      right
      rfl
    · simp at h

lemma mem_staErrsAt_code {i : Nat} {s : Station} {e : VRec} (h : e ∈ staErrsAt i s) :
    e.code = "bad_position" := by
  unfold staErrsAt at h
  split_ifs at h
  · simp at h
  · simp at h
    rw [h]

lemma mem_warnsFrom_code :
    ∀ {tests : List TestVariant} {n : Nat} {m : String → Int} {e : VRec},
      e ∈ warnsFrom n m tests →
        e.code = "non_monotonic_timeframe" ∨ e.code = "missing_placeholder" := by
  intro tests
  induction tests with
  | nil => intro n m e h; simp [warnsFrom] at h
  | cons tv rest ih =>
    intro n m e h
    cases tv with
    | move t =>
      rw [show warnsFrom n m (.move t :: rest) =
        (if decide (m t.node > t.timeframe) then [nonMonoWarn n t (m t.node)] else []) ++
          warnsFrom (n + 1) (stepState (.move t) m) rest from rfl] at h
      rcases List.mem_append.mp h with h | h
      · split_ifs at h
        · simp at h
          rw [h]
          left
          rfl
        · simp at h
      · exact ih h
    | iw t =>
      rw [show warnsFrom n m (.iw t :: rest) =
        (if containsSub "{interface}".data t.cmd.data then []
          else [missingPlaceholderWarn n t]) ++ warnsFrom (n + 1) m rest from rfl] at h
      rcases List.mem_append.mp h with h | h
      · split_ifs at h
        · simp at h
        · simp at h
          rw [h]
          right
          rfl
      · exact ih h

lemma mem_backendWarns_code {s : Spec} {e : VRec} (h : e ∈ backendWarns s) :
    e.code = "backend_role_mismatch" := by
  unfold backendWarns at h
  split_ifs at h
  · simp at h
    rw [h]
  · simp at h

lemma mem_noiseWarns_code {s : Spec} {e : VRec} (h : e ∈ noiseWarns s) :
    e.code = "suspicious_noise_th" := by
  unfold noiseWarns at h
  split_ifs at h
  · simp at h
    rw [h]
  · simp at h

/-! ### Structural validity silences the redundant semantic checks -/

lemma apErrsAt_nil_of_valid {i : Nat} {a : AP} (h : apValid a = true) :
    apErrsAt i a = [] := by
  unfold apValid at h
  simp only [Bool.and_eq_true, decide_eq_true_eq] at h
  obtain ⟨⟨⟨⟨⟨_, _⟩, hch⟩, _⟩, _⟩, hpos⟩ := h
  unfold apErrsAt
  rw [if_pos (positions_tuple_isSome hpos)]
  rw [if_neg ?_]
  · simp
  · simp only [Bool.and_eq_true, decide_eq_true_eq, not_and]
    intro _
    omega

lemma staErrsAt_nil_of_valid {i : Nat} {s : Station} (h : stationValid s = true) :
    staErrsAt i s = [] := by
  unfold stationValid at h
  simp only [Bool.and_eq_true, decide_eq_true_eq] at h
  unfold staErrsAt
  rw [if_pos (positions_tuple_isSome h.2)]

/-! ### Generic helpers for the claim theorems -/

/-- The pooled identifier list `all_ids` of `validate_semantics`. -/
def pooledIds (s : Spec) : List String :=
  s.topo.aps.map AP.id ++ s.topo.stations.map Station.id

lemma nodup_iff_dedup_len {α : Type} [DecidableEq α] (l : List α) :
    l.Nodup ↔ l.dedup.length = l.length := by
  constructor
  · intro h
    rw [List.dedup_eq_self.mpr h]
  · intro h
    have := (List.dedup_sublist l).eq_of_length h
    rw [← this]
    exact l.nodup_dedup

lemma spec_ok_false_of_mem {s : Spec} {e : VRec} (h : e ∈ (validate_semantics s).1) :
    spec_ok s = false := by
  unfold spec_ok
  cases hl : (validate_semantics s).1 with
  | nil => rw [hl] at h; simp at h
  | cons x xs => rfl

lemma mem_apFlat_code {s : Spec} {e : VRec}
    (h : e ∈ (s.topo.aps.enum.map (fun p => apErrsAt p.1 p.2)).flatten) :
    e.code = "bad_position" ∨ e.code = "bad_channel" := by
  rw [List.mem_flatten] at h
  obtain ⟨l, hl, he⟩ := h
  rw [List.mem_map] at hl
  obtain ⟨p, _, rfl⟩ := hl
  exact mem_apErrsAt_code he

lemma mem_staFlat_code {s : Spec} {e : VRec}
    (h : e ∈ (s.topo.stations.enum.map (fun p => staErrsAt p.1 p.2)).flatten) :
    e.code = "bad_position" := by
  rw [List.mem_flatten] at h
  obtain ⟨l, hl, he⟩ := h
  rw [List.mem_map] at hl
  obtain ⟨p, _, rfl⟩ := hl
  exact mem_staErrsAt_code he

/-- Every fatal record carries one of the four semantic error codes. -/
lemma mem_errors_code {s : Spec} {e : VRec} (h : e ∈ (validate_semantics s).1) :
    e.code = "duplicate_id" ∨ e.code = "bad_position" ∨ e.code = "bad_channel" ∨
      e.code = "unknown_station" := by
  rw [validate_semantics_eq] at h
  simp only at h
  rcases List.mem_append.mp h with h | h
  · rcases List.mem_append.mp h with h | h
    · rcases List.mem_append.mp h with h | h
      · split_ifs at h
        · simp at h
          rw [h]
          left
          rfl
        · simp at h
      · right
        rcases mem_apFlat_code h with h | h
        · left; exact h
        · right; left; exact h
    · right; left
      exact mem_staFlat_code h
  · right; right; right
    exact mem_errsFrom_code h

/-- Every warning record carries one of the four warning codes. -/
lemma mem_warnings_code {s : Spec} {e : VRec} (h : e ∈ (validate_semantics s).2) :
    e.code = "non_monotonic_timeframe" ∨ e.code = "missing_placeholder" ∨
      e.code = "backend_role_mismatch" ∨ e.code = "suspicious_noise_th" := by
  rw [validate_semantics_eq] at h
  simp only at h
  rcases List.mem_append.mp h with h | h
  · rcases List.mem_append.mp h with h | h
    · rcases mem_warnsFrom_code h with h | h
      · left; exact h
      · right; left; exact h
    · right; right; left
      exact mem_backendWarns_code h
  · right; right; right
    exact mem_noiseWarns_code h

/-! ### Concrete specs used as test vectors in the claim theorems -/

def exMeta : Meta := ⟨"mininet-wifi", "t", 60⟩

def exPM : PropagationModel := ⟨"logDistance", 3, none⟩

def exNets : Nets := ⟨-91, exPM⟩

def exC2 : Spec :=
  ⟨"1.0", exMeta, ⟨exNets, [], [⟨"sta1", "1,2,3"⟩, ⟨"sta1", "4,5,6"⟩]⟩, [], "", "", ""⟩

def exC3 : Spec :=
  ⟨"1.0", exMeta, ⟨exNets, [], [⟨"sta1", "1,2,3"⟩, ⟨"sta2", "4,5,6"⟩]⟩,
    [.move ⟨"m1", 0, "sta9", "7,8,9"⟩], "", "", ""⟩

def exC4 : Spec :=
  ⟨"1.0", exMeta, ⟨exNets, [], [⟨"sta1", "1,2,3"⟩]⟩,
    [.iw ⟨"i1", "iw dev list"⟩], "", "", ""⟩

def exC5 : Spec :=
  ⟨"1.0", exMeta, ⟨exNets, [], [⟨"sta1", "1,2,3"⟩]⟩,
    [.move ⟨"m1", 2, "sta1", "1,2,3"⟩, .move ⟨"m2", 5, "sta1", "4,5,6"⟩,
     .move ⟨"m3", 3, "sta1", "7,8,9"⟩], "", "", ""⟩

/-! ### Claim theorems for the semantic validator -/

/-- C6: schema validation of a `PropagationModel` with
`model='logNormalShadowing'` fails exactly when `s` is absent or
`s ≤ 0` (omitting `s` fails, `s = -1` fails, any `s > 0` passes), while
`model='logDistance'` needs no `s`; in both variants `exp > 0` is
required. -/
theorem claim_C6 :
    (∀ pm : PropagationModel, pm.model = "logNormalShadowing" → 0 < pm.exp →
      (pmValid pm = false ↔ pm.s = none ∨ ∃ v, pm.s = some v ∧ v ≤ 0)) ∧
    (∀ pm : PropagationModel, pm.model = "logDistance" → 0 < pm.exp →
      pmValid pm = true) ∧
    (∀ pm : PropagationModel, pm.exp ≤ 0 → pmValid pm = false) ∧
    (∀ e : ℚ, 0 < e → pmValid ⟨"logNormalShadowing", e, none⟩ = false) ∧
    (∀ e : ℚ, 0 < e → pmValid ⟨"logNormalShadowing", e, some (-1)⟩ = false) ∧
    (∀ e v : ℚ, 0 < e → 0 < v → pmValid ⟨"logNormalShadowing", e, some v⟩ = true) := by
  have hmain : ∀ pm : PropagationModel, pm.model = "logNormalShadowing" → 0 < pm.exp →
      (pmValid pm = false ↔ pm.s = none ∨ ∃ v, pm.s = some v ∧ v ≤ 0) := by
    intro pm hm hexp
    unfold pmValid
    rw [hm]
    cases hs : pm.s with
    | none => simp
    | some v =>
      constructor
      · intro h
        right
        refine ⟨v, rfl, ?_⟩
        by_contra hv
        push_neg at hv
        simp [hexp, hv] at h
      · intro h
        rcases h with h | ⟨w, hw, hwle⟩
        · exact absurd h (by simp)
        · have hvw : v = w := by injection hw
          subst hvw
          simp [not_lt.mpr hwle]
  refine ⟨hmain, ?_, ?_, ?_, ?_, ?_⟩
  · intro pm hm hexp
    unfold pmValid
    rw [hm]
    simp [hexp]
  · intro pm hexp
    unfold pmValid
    simp [not_lt.mpr hexp]
  · intro e he
    have := (hmain ⟨"logNormalShadowing", e, none⟩ rfl he).mpr (Or.inl rfl)
    exact this
  · intro e he
    exact (hmain ⟨"logNormalShadowing", e, some (-1)⟩ rfl he).mpr
      (Or.inr ⟨-1, rfl, by norm_num⟩)
  · intro e v he hv
    unfold pmValid
    simp [he, hv]

/-- Witness for C6 at concrete inputs. -/
theorem claim_C6_witness :
    pmValid ⟨"logNormalShadowing", 3, none⟩ = false ∧
    pmValid ⟨"logNormalShadowing", 3, some (-1)⟩ = false ∧
    pmValid ⟨"logNormalShadowing", 3, some 2⟩ = true ∧
    pmValid ⟨"logDistance", 3, none⟩ = true ∧
    pmValid ⟨"logNormalShadowing", -1, some 2⟩ = false :=
  ⟨claim_C6.2.2.2.1 3 (by norm_num),
   claim_C6.2.2.2.2.1 3 (by norm_num),
   claim_C6.2.2.2.2.2 3 2 (by norm_num) (by norm_num),
   claim_C6.2.1 ⟨"logDistance", 3, none⟩ rfl (by norm_num),
   claim_C6.2.2.1 ⟨"logNormalShadowing", -1, some 2⟩ (by norm_num)⟩

/-- C2: with a duplicated pooled identifier `validate_semantics` emits
exactly one `duplicate_id` error (regardless of how many duplicates)
and the run is not ok; with pairwise-distinct pooled ids no
`duplicate_id` error is emitted. -/
theorem claim_C2 (s : Spec) :
    (¬ (pooledIds s).Nodup →
      ((validate_semantics s).1.countP (fun e => e.code = "duplicate_id") = 1 ∧
        dupIdErr ∈ (validate_semantics s).1 ∧ spec_ok s = false)) ∧
    ((pooledIds s).Nodup →
      (validate_semantics s).1.countP (fun e => e.code = "duplicate_id") = 0) := by
  have hz1 : ((s.topo.aps.enum.map (fun p => apErrsAt p.1 p.2)).flatten).countP
      (fun e => e.code = "duplicate_id") = 0 := by
    rw [List.countP_eq_zero]
    intro e he
    rcases mem_apFlat_code he with h | h <;> simp [h]
  have hz2 : ((s.topo.stations.enum.map (fun p => staErrsAt p.1 p.2)).flatten).countP
      (fun e => e.code = "duplicate_id") = 0 := by
    rw [List.countP_eq_zero]
    intro e he
    simp [mem_staFlat_code he]
  have hz3 : (errsFrom (s.topo.stations.map Station.id) 0 s.tests).countP
      (fun e => e.code = "duplicate_id") = 0 := by
    rw [List.countP_eq_zero]
    intro e he
    simp [mem_errsFrom_code he]
  constructor
  · intro hdup
    have hlen : (pooledIds s).length ≠ (pooledIds s).dedup.length := by
      intro hl
      exact hdup ((nodup_iff_dedup_len _).mpr hl.symm)
    unfold pooledIds at hlen
    have hmem : dupIdErr ∈ (validate_semantics s).1 := by
      rw [validate_semantics_eq]
      simp only
      rw [if_pos hlen]
      simp
    refine ⟨?_, hmem, spec_ok_false_of_mem hmem⟩
    rw [validate_semantics_eq]
    simp only
    rw [if_pos hlen]
    rw [List.countP_append, List.countP_append, List.countP_append]
    rw [hz1, hz2, hz3]
    rfl
  · intro hnod
    have hlen : ¬ ((pooledIds s).length ≠ (pooledIds s).dedup.length) := by
      rw [not_ne_iff]
      exact ((nodup_iff_dedup_len _).mp hnod).symm
    unfold pooledIds at hlen
    rw [validate_semantics_eq]
    simp only
    rw [if_neg hlen]
    rw [List.countP_append, List.countP_append, List.countP_append]
    rw [hz1, hz2, hz3]
    rfl

/-- Witness for C2: two stations sharing id `sta1` yield exactly one
`duplicate_id` error and `ok=false`; the distinct-id spec yields none. -/
theorem claim_C2_witness :
    ((validate_semantics exC2).1.countP (fun e => e.code = "duplicate_id") = 1 ∧
      dupIdErr ∈ (validate_semantics exC2).1 ∧ spec_ok exC2 = false) ∧
    (validate_semantics exC3).1.countP (fun e => e.code = "duplicate_id") = 0 :=
  ⟨(claim_C2 exC2).1 (by decide), (claim_C2 exC3).2 (by decide)⟩

lemma errsFrom_nil {staIds : List String} :
    ∀ (tests : List TestVariant) (n : Nat),
      (∀ t0 ∈ tests, ∀ t, t0 = TestVariant.move t → t.node ∈ staIds) →
      errsFrom staIds n tests = [] := by
  intro tests
  induction tests with
  | nil => intro n _; rfl
  | cons tv rest ih =>
    intro n hall
    cases tv with
    | move t =>
      show (if t.node ∈ staIds then [] else [unknownStationErr n t]) ++
        errsFrom staIds (n + 1) rest = []
      rw [if_pos (hall (TestVariant.move t) (by simp) t rfl)]
      rw [List.nil_append]
      exact ih (n + 1) (fun t0 h0 t' h' => hall t0 (by simp [h0]) t' h')
    | iw t =>
      show errsFrom staIds (n + 1) rest = []
      exact ih (n + 1) (fun t0 h0 t' h' => hall t0 (by simp [h0]) t' h')

/-- C3: every Move whose `node` is not a declared station id yields an
`unknown_station` error at `tests[i].node` and makes the run fail;
Moves referencing declared stations produce no `unknown_station`
error. -/
theorem claim_C3 (s : Spec) :
    (∀ i t, s.tests[i]? = some (.move t) →
      t.node ∉ s.topo.stations.map Station.id →
      unknownStationErr i t ∈ (validate_semantics s).1 ∧ spec_ok s = false) ∧
    ((∀ t0 ∈ s.tests, ∀ t, t0 = TestVariant.move t →
        t.node ∈ s.topo.stations.map Station.id) →
      ∀ e ∈ (validate_semantics s).1, e.code ≠ "unknown_station") := by
  constructor
  · intro i t hi hnotin
    have hmem0 : unknownStationErr i t ∈
        errsFrom (s.topo.stations.map Station.id) 0 s.tests := by
      rw [errsFrom_flat]
      rw [List.mem_flatMap]
      refine ⟨(i, .move t), ?_, ?_⟩
      · rw [show List.enumFrom 0 s.tests = s.tests.enum from rfl,
          List.mem_enum_iff_getElem?]
        exact hi
      · simp only
        rw [if_neg hnotin]
        simp
    have hmem : unknownStationErr i t ∈ (validate_semantics s).1 := by
      rw [validate_semantics_eq]
      simp only
      exact List.mem_append_right _ hmem0
    exact ⟨hmem, spec_ok_false_of_mem hmem⟩
  · intro hall e he
    rw [validate_semantics_eq] at he
    simp only at he
    rcases List.mem_append.mp he with he | he
    · rcases List.mem_append.mp he with he | he
      · rcases List.mem_append.mp he with he | he
        · split_ifs at he
          · simp at he
            rw [he]
            decide
          · simp at he
        · rcases mem_apFlat_code he with h | h <;> rw [h] <;> decide
      · rw [mem_staFlat_code he]
        decide
    · rw [errsFrom_nil s.tests 0 hall] at he
      simp at he

/-- Witness for C3 at the concrete spec with an undeclared station. -/
theorem claim_C3_witness :
    (unknownStationErr 0 ⟨"m1", 0, "sta9", "7,8,9"⟩ ∈ (validate_semantics exC3).1 ∧
      spec_ok exC3 = false) ∧
    (∀ e ∈ (validate_semantics exC4).1, e.code ≠ "unknown_station") :=
  ⟨(claim_C3 exC3).1 0 ⟨"m1", 0, "sta9", "7,8,9"⟩ (by decide) (by decide),
   (claim_C3 exC4).2 (by
      intro t0 h0 t ht
      subst ht
      simp [exC4] at h0)⟩

lemma warnsFrom_countP_mp :
    ∀ (tests : List TestVariant) (n : Nat) (m : String → Int),
      (warnsFrom n m tests).countP (fun e => e.code = "missing_placeholder") =
        tests.countP (fun tv =>
          match tv with
          | .iw t => !containsSub "{interface}".data t.cmd.data
          | .move _ => false) := by
  intro tests
  induction tests with
  | nil => intro n m; rfl
  | cons tv rest ih =>
    intro n m
    cases tv with
    | move t =>
      show ((if decide (m t.node > t.timeframe) then [nonMonoWarn n t (m t.node)] else []) ++
        warnsFrom (n + 1) (stepState (.move t) m) rest).countP _ = _
      rw [List.countP_append, ih, List.countP_cons]
      have hone : (if decide (m t.node > t.timeframe) then [nonMonoWarn n t (m t.node)]
          else []).countP (fun e => e.code = "missing_placeholder") = 0 := by
        split_ifs
        · simp [nonMonoWarn]
        · rfl
      rw [hone]
      simp
    | iw t =>
      show ((if containsSub "{interface}".data t.cmd.data then []
        else [missingPlaceholderWarn n t]) ++ warnsFrom (n + 1) m rest).countP _ = _
      rw [List.countP_append, ih, List.countP_cons]
      by_cases h : containsSub "{interface}".data t.cmd.data = true
      · rw [if_pos h]
        simp [h]
      · rw [if_neg h]
        simp only [Bool.not_eq_true] at h
        simp [h, missingPlaceholderWarn, List.countP_cons]
        omega

/-- C4: a DiagnosticCommand whose `cmd` lacks the placeholder yields a
`missing_placeholder` warning (one per such action, at `tests[i].cmd`)
and never an error; on the otherwise-clean concrete spec this gives
`ok=true`, zero errors and exactly that one warning. -/
theorem claim_C4 :
    (∀ s : Spec, (validate_semantics s).2.countP (fun e => e.code = "missing_placeholder") =
      s.tests.countP (fun tv =>
        match tv with
        | .iw t => !containsSub "{interface}".data t.cmd.data
        | .move _ => false)) ∧
    (∀ (s : Spec) (i : Nat) (t : TestIw), s.tests[i]? = some (.iw t) →
      containsSub "{interface}".data t.cmd.data = false →
      missingPlaceholderWarn i t ∈ (validate_semantics s).2) ∧
    (∀ s : Spec, ∀ e ∈ (validate_semantics s).1, e.code ≠ "missing_placeholder") ∧
    (validate_semantics exC4 = ([], [missingPlaceholderWarn 0 ⟨"i1", "iw dev list"⟩]) ∧
      spec_ok exC4 = true) := by
  refine ⟨?_, ?_, ?_, by decide, by decide⟩
  · intro s
    rw [validate_semantics_eq]
    simp only
    rw [List.countP_append, List.countP_append]
    rw [warnsFrom_countP_mp]
    have hb : (backendWarns s).countP (fun e => e.code = "missing_placeholder") = 0 := by
      rw [List.countP_eq_zero]
      intro e he
      simp [mem_backendWarns_code he]
    have hn : (noiseWarns s).countP (fun e => e.code = "missing_placeholder") = 0 := by
      rw [List.countP_eq_zero]
      intro e he
      simp [mem_noiseWarns_code he]
    rw [hb, hn]
    simp
  · intro s i t hi hmiss
    rw [validate_semantics_eq]
    simp only
    apply List.mem_append_left
    apply List.mem_append_left
    rw [warnsFrom_flat]
    rw [List.mem_flatMap]
    refine ⟨(i, .iw t), ?_, ?_⟩
    · rw [show List.enumFrom 0 s.tests = s.tests.enum from rfl,
        List.mem_enum_iff_getElem?]
      exact hi
    · simp only
      rw [if_neg (by rw [hmiss]; exact Bool.false_ne_true)]
      simp
  · intro s e he hcode
    rcases mem_errors_code he with h | h | h | h <;> rw [hcode] at h <;> exact absurd h (by decide)

/-- Witness for C4 at the concrete spec. -/
theorem claim_C4_witness :
    missingPlaceholderWarn 0 ⟨"i1", "iw dev list"⟩ ∈ (validate_semantics exC4).2 :=
  claim_C4.2.1 exC4 0 ⟨"i1", "iw dev list"⟩ (by decide) (by decide)

/-- C5: `validate_semantics` emits a `non_monotonic_timeframe` warning
for a Move exactly when its timeframe is strictly below the running
maximum (sentinel `-1`) of the earlier Moves of the same station, the
running maximum after a prefix being the fold of `max`; concretely
timeframes `[2, 5, 3]` for `sta1` yield exactly one warning, on the
third action, with `ok=true`. -/
theorem claim_C5 :
    (∀ s : Spec, (validate_semantics s).2 =
      s.tests.enum.flatMap (fun p =>
        match p.2 with
        | .move t =>
          if t.timeframe < List.foldl max (-1) (moveTfs (s.tests.take p.1) t.node) then
            [nonMonoWarn p.1 t (List.foldl max (-1) (moveTfs (s.tests.take p.1) t.node))]
          else []
        | .iw t =>
          if containsSub "{interface}".data t.cmd.data then []
          else [missingPlaceholderWarn p.1 t]) ++ backendWarns s ++ noiseWarns s) ∧
    (∀ (s : Spec) (node : String),
      stateAfter (fun _ => -1) s.tests node =
        List.foldl max (-1) (moveTfs s.tests node)) ∧
    (validate_semantics exC5 = ([], [nonMonoWarn 2 ⟨"m3", 3, "sta1", "7,8,9"⟩ 5]) ∧
      spec_ok exC5 = true) := by
  refine ⟨?_, ?_, by decide, by decide⟩
  · intro s
    rw [validate_semantics_eq]
    simp only
    rw [warnsFrom_flat]
    simp only [Nat.sub_zero]
    rfl
  · intro s node
    exact stateAfter_eq s.tests (fun _ => -1) node

lemma mem_of_getElem?_mem {α : Type} {l : List α} {n : Nat} {a : α} (h : l[n]? = some a) :
    a ∈ l := by
  have hn : n < l.length := by
    by_contra hc
    push_neg at hc
    rw [List.getElem?_eq_none hc] at h
    cases h
  rw [List.getElem?_eq_getElem hn] at h
  injection h with h2
  rw [← h2]
  exact l.getElem_mem hn

/-- C9: on a structurally valid spec the redundant semantic branches are
unreachable — `_positions_tuple` succeeds on every AP and station
position, and the only fatal codes `validate_semantics` can emit are
`duplicate_id` and `unknown_station` (no `bad_position`, no
`bad_channel`). -/
theorem claim_C9 (s : Spec) (h : specValid s = true) :
    (∀ a ∈ s.topo.aps, (positions_tuple a.position.data).isSome = true) ∧
    (∀ st ∈ s.topo.stations, (positions_tuple st.position.data).isSome = true) ∧
    (∀ e ∈ (validate_semantics s).1,
      e.code = "duplicate_id" ∨ e.code = "unknown_station") := by
  unfold specValid at h
  simp only [Bool.and_eq_true] at h
  obtain ⟨⟨⟨⟨_, _⟩, haps⟩, hstas⟩, _⟩ := h
  rw [List.all_eq_true] at haps hstas
  have hap : ∀ a ∈ s.topo.aps, (positions_tuple a.position.data).isSome = true := by
    intro a ha
    have hv := haps a ha
    unfold apValid at hv
    simp only [Bool.and_eq_true, decide_eq_true_eq] at hv
    exact positions_tuple_isSome hv.2
  have hsta : ∀ st ∈ s.topo.stations, (positions_tuple st.position.data).isSome = true := by
    intro st hst
    have hv := hstas st hst
    unfold stationValid at hv
    simp only [Bool.and_eq_true, decide_eq_true_eq] at hv
    exact positions_tuple_isSome hv.2
  refine ⟨hap, hsta, ?_⟩
  intro e he
  rw [validate_semantics_eq] at he
  simp only at he
  rcases List.mem_append.mp he with he | he
  · rcases List.mem_append.mp he with he | he
    · rcases List.mem_append.mp he with he | he
      · split_ifs at he
        · simp at he
          rw [he]
          left
          rfl
        · simp at he
      · exfalso
        rw [List.mem_flatten] at he
        obtain ⟨l, hl, hel⟩ := he
        rw [List.mem_map] at hl
        obtain ⟨p, hp, rfl⟩ := hl
        have hpa : p.2 ∈ s.topo.aps := by
          have := List.mem_enum_iff_getElem?.mp hp
          exact mem_of_getElem?_mem this
        rw [apErrsAt_nil_of_valid (haps p.2 hpa)] at hel
        simp at hel
    · exfalso
      rw [List.mem_flatten] at he
      obtain ⟨l, hl, hel⟩ := he
      rw [List.mem_map] at hl
      obtain ⟨p, hp, rfl⟩ := hl
      have hpa : p.2 ∈ s.topo.stations := by
        have := List.mem_enum_iff_getElem?.mp hp
        exact mem_of_getElem?_mem this
      rw [staErrsAt_nil_of_valid (hstas p.2 hpa)] at hel
      simp at hel
  · right
    exact mem_errsFrom_code he

/-- Witness for C9 at a concrete structurally valid spec. -/
theorem claim_C9_witness :
    (∀ a ∈ exC3.topo.aps, (positions_tuple a.position.data).isSome = true) ∧
    (∀ st ∈ exC3.topo.stations, (positions_tuple st.position.data).isSome = true) ∧
    (∀ e ∈ (validate_semantics exC3).1,
      e.code = "duplicate_id" ∨ e.code = "unknown_station") :=
  claim_C9 exC3 (by decide)

/-! ### JSON values (Python dicts/lists as produced by `model_dump`) -/

/-- A JSON tree; objects are association lists (Python dicts preserve
insertion order, equality is by content), strings are character
lists, numbers are exact rationals (see the header note). -/
inductive Json where
  | null : Json
  | bool (b : Bool) : Json
  | num (q : ℚ) : Json
  | str (s : List Char) : Json
  | arr (xs : List Json) : Json
  | obj (kvs : List (List Char × Json)) : Json

/-- One character of `json.dumps`'s string escaping (`ensure_ascii`):
shorthand escapes, `\uXXXX` for other control and non-ASCII BMP
characters, surrogate pairs beyond the BMP. -/
def hexDigitChar : Nat → Char
  | 0 => '0'
  | 1 => '1'
  | 2 => '2'
  | 3 => '3'
  | 4 => '4'
  | 5 => '5'
  | 6 => '6'
  | 7 => '7'
  | 8 => '8'
  | 9 => '9'
  | 10 => 'a'
  | 11 => 'b'
  | 12 => 'c'
  | 13 => 'd'
  | 14 => 'e'
  | 15 => 'f'
  | _ => '0'

def hex4 (v : Nat) : List Char :=
  [hexDigitChar (v / 4096 % 16), hexDigitChar (v / 256 % 16),
   hexDigitChar (v / 16 % 16), hexDigitChar (v % 16)]

def escChar (c : Char) : List Char :=
  if c = '\\' then ['\\', '\\']
  else if c = '"' then ['\\', '"']
  else if c = '\n' then ['\\', 'n']
  else if c = '\t' then ['\\', 't']
  else if c = '\r' then ['\\', 'r']
  else if c = '\x08' then ['\\', 'b']
  else if c = '\x0c' then ['\\', 'f']
  else if c.toNat < 32 ∨ 128 ≤ c.toNat then
    if c.toNat < 65536 then '\\' :: 'u' :: hex4 c.toNat
    else
      ('\\' :: 'u' :: hex4 (55296 + (c.toNat - 65536) / 1024)) ++
      ('\\' :: 'u' :: hex4 (56320 + (c.toNat - 65536) % 1024))
  else [c]

def escString (s : List Char) : List Char := s.flatMap escChar

/-- Deterministic rendering of a JSON number.  (The exact digits never
matter to any claim below — the canonical-bytes claims only use that
rendering is a function of the value — so integers are rendered as
decimal integers and non-integers as exact fractions.) -/
def renderQ (q : ℚ) : List Char :=
  if q.den = 1 then (toString q.num).data
  else (toString q.num).data ++ '/' :: (toString q.den).data

/-- `", "`-separated joining, as with `json.dumps`'s default separators. -/
def joinComma : List (List Char) → List Char
  | [] => []
  | [x] => x
  | x :: y :: rest => x ++ ',' :: ' ' :: joinComma (y :: rest)

/-- Lexicographic comparison on key code points — the order `sorted`
uses on Python `str` keys. -/
def keyLe : List Char → List Char → Bool
  | [], _ => true
  | _ :: _, [] => false
  | c :: a2, d :: b2 =>
    if c.toNat < d.toNat then true
    else if d.toNat < c.toNat then false
    else keyLe a2 b2

def insortEntry (e : List Char × Json) : List (List Char × Json) → List (List Char × Json)
  | [] => [e]
  | f :: rest => if keyLe e.1 f.1 then e :: f :: rest else f :: insortEntry e rest

/-- Key-sorting of an object's entries (`sort_keys=True`). -/
def sortEntries : List (List Char × Json) → List (List Char × Json)
  | [] => []
  | e :: rest => insortEntry e (sortEntries rest)

/-- Recursively sort every object's keys. -/
def jcanon : Json → Json
  | .null => .null
  | .bool b => .bool b
  | .num q => .num q
  | .str s => .str s
  | .arr xs => .arr (xs.attach.map (fun x => jcanon x.1))
  | .obj kvs => .obj (sortEntries (kvs.attach.map (fun p => (p.1.1, jcanon p.1.2))))
decreasing_by
  all_goals simp_wf
  all_goals try (have hs := List.sizeOf_lt_of_mem x.2; omega)
  all_goals try (obtain ⟨⟨k, v⟩, hp⟩ := p
                 have h1 := List.sizeOf_lt_of_mem hp
                 simp at h1 ⊢
                 omega)

/-- Serialization without sorting (objects assumed already sorted). -/
def dumpsRaw : Json → List Char
  | .null => "null".data
  | .bool true => "true".data
  | .bool false => "false".data
  | .num q => renderQ q
  | .str s => '"' :: escString s ++ ['"']
  | .arr xs => '[' :: joinComma (xs.attach.map (fun x => dumpsRaw x.1)) ++ [']']
  | .obj kvs =>
    '{' :: joinComma (kvs.attach.map
      (fun p => '"' :: escString p.1.1 ++ '"' :: ':' :: ' ' :: dumpsRaw p.1.2)) ++ ['}']
decreasing_by
  all_goals simp_wf
  all_goals try (have hs := List.sizeOf_lt_of_mem x.2; omega)
  all_goals try (obtain ⟨⟨k, v⟩, hp⟩ := p
                 have h1 := List.sizeOf_lt_of_mem hp
                 simp at h1 ⊢
                 omega)

/-- `json.dumps(x, sort_keys=True)` as canonical bytes (characters; the
output is pure ASCII thanks to `ensure_ascii`, so UTF-8 encoding is the
identity on code points). -/
def dumps (j : Json) : List Char := dumpsRaw (jcanon j)

/-! ### SHA-256 (pure, over byte lists; words are `Nat mod 2^32`) -/

def w32 (n : Nat) : Nat := n % 4294967296

def rotr (r x : Nat) : Nat := w32 ((x >>> r) ||| (x <<< (32 - r)))

def bigSigma0 (x : Nat) : Nat := rotr 2 x ^^^ rotr 13 x ^^^ rotr 22 x

def bigSigma1 (x : Nat) : Nat := rotr 6 x ^^^ rotr 11 x ^^^ rotr 25 x

def smallSigma0 (x : Nat) : Nat := rotr 7 x ^^^ rotr 18 x ^^^ (x >>> 3)

def smallSigma1 (x : Nat) : Nat := rotr 17 x ^^^ rotr 19 x ^^^ (x >>> 10)

def shaCh (x y z : Nat) : Nat := (x &&& y) ^^^ ((x ^^^ 4294967295) &&& z)

def shaMaj (x y z : Nat) : Nat := (x &&& y) ^^^ (x &&& z) ^^^ (y &&& z)

def K256 : List Nat :=
  [1116352408, 1899447441, 3049323471, 3921009573, 961987163, 1508970993, 2453635748,
   2870763221, 3624381080, 310598401, 607225278, 1426881987, 1925078388, 2162078206,
   2614888103, 3248222580, 3835390401, 4022224774, 264347078, 604807628, 770255983,
   1249150122, 1555081692, 1996064986, 2554220882, 2821834349, 2952996808, 3210313671,
   3336571891, 3584528711, 113926993, 338241895, 666307205, 773529912, 1294757372,
   1396182291, 1695183700, 1986661051, 2177026350, 2456956037, 2730485921, 2820302411,
   3259730800, 3345764771, 3516065817, 3600352804, 4094571909, 275423344, 430227734,
   506948616, 659060556, 883997877, 958139571, 1322822218, 1537002063, 1747873779,
   1955562222, 2024104815, 2227730452, 2361852424, 2428436474, 2756734187, 3204031479,
   3329325298]

structure Hash8 where
  a : Nat
  b : Nat
  c : Nat
  d : Nat
  e : Nat
  f : Nat
  g : Nat
  h : Nat

def shaIV : Hash8 :=
  ⟨1779033703, 3144134277, 1013904242, 2773480762, 1359893119, 2600822924, 528734635,
   1541459225⟩

def be32 (n : Nat) : List Nat :=
  [(n >>> 24) % 256, (n >>> 16) % 256, (n >>> 8) % 256, n % 256]

def be64 (n : Nat) : List Nat :=
  [(n >>> 56) % 256, (n >>> 48) % 256, (n >>> 40) % 256, (n >>> 32) % 256,
   (n >>> 24) % 256, (n >>> 16) % 256, (n >>> 8) % 256, n % 256]

def shaPad (msg : List Nat) : List Nat :=
  msg ++ 128 :: List.replicate ((119 - msg.length % 64) % 64) 0 ++ be64 (8 * msg.length)

def chunks64 (l : List Nat) : List (List Nat) :=
  if h : l = [] then [] else l.take 64 :: chunks64 (l.drop 64)
termination_by l.length
decreasing_by
  simp only [List.length_drop]
  have : l.length ≠ 0 := fun hc => h (List.eq_nil_of_length_eq_zero hc)
  omega

def bytesToWords : List Nat → List Nat
  | b0 :: b1 :: b2 :: b3 :: rest =>
    ((b0 <<< 24) ||| (b1 <<< 16) ||| (b2 <<< 8) ||| b3) :: bytesToWords rest
  | _ => []

def schedExt (ws : List Nat) : List Nat :=
  (List.range 48).foldl
    (fun acc _ =>
      let k := acc.length
      acc ++ [w32 (smallSigma1 (acc.getD (k - 2) 0) + acc.getD (k - 7) 0 +
        smallSigma0 (acc.getD (k - 15) 0) + acc.getD (k - 16) 0)])
    ws

def shaRound (st : Hash8) (kw : Nat × Nat) : Hash8 :=
  let t1 := w32 (st.h + bigSigma1 st.e + shaCh st.e st.f st.g + kw.1 + kw.2)
  let t2 := w32 (bigSigma0 st.a + shaMaj st.a st.b st.c)
  ⟨w32 (t1 + t2), st.a, st.b, st.c, w32 (st.d + t1), st.e, st.f, st.g⟩

def shaChunk (st : Hash8) (chunk : List Nat) : Hash8 :=
  let ws := schedExt (bytesToWords chunk)
  let fin := (K256.zip ws).foldl shaRound st
  ⟨w32 (st.a + fin.a), w32 (st.b + fin.b), w32 (st.c + fin.c), w32 (st.d + fin.d),
   w32 (st.e + fin.e), w32 (st.f + fin.f), w32 (st.g + fin.g), w32 (st.h + fin.h)⟩

def sha256 (msg : List Nat) : List Nat :=
  let st := (chunks64 (shaPad msg)).foldl shaChunk shaIV
  be32 st.a ++ be32 st.b ++ be32 st.c ++ be32 st.d ++ be32 st.e ++ be32 st.f ++
    be32 st.g ++ be32 st.h

def hexOfBytes (bs : List Nat) : List Char :=
  bs.flatMap (fun b => [hexDigitChar ((b >>> 4) % 16), hexDigitChar (b % 16)])

/-- `_spec_hash`: canonical bytes (`json.dumps(..., sort_keys=True)`,
UTF-8-encoded — the identity on this ASCII output), SHA-256, hex,
truncated to 12 characters. -/
def spec_hash (j : Json) : List Char :=
  (hexOfBytes (sha256 ((dumps j).map Char.toNat))).take 12

def isHexChar (c : Char) : Bool := "0123456789abcdef".data.contains c

lemma hexDigitChar_hex (n : Nat) : isHexChar (hexDigitChar n) = true :=
  match n with
  | 0 => by decide
  | 1 => by decide
  | 2 => by decide
  | 3 => by decide
  | 4 => by decide
  | 5 => by decide
  | 6 => by decide
  | 7 => by decide
  | 8 => by decide
  | 9 => by decide
  | 10 => by decide
  | 11 => by decide
  | 12 => by decide
  | 13 => by decide
  | 14 => by decide
  | 15 => by decide
  | k + 16 => by rfl

lemma sha256_length (msg : List Nat) : (sha256 msg).length = 32 := by
  simp [sha256, be32]

lemma hexOfBytes_length (bs : List Nat) : (hexOfBytes bs).length = 2 * bs.length := by
  induction bs with
  | nil => rfl
  | cons b rest ih =>
    show (hexOfBytes (b :: rest)).length = _
    rw [show hexOfBytes (b :: rest) =
      hexDigitChar ((b >>> 4) % 16) :: hexDigitChar (b % 16) :: hexOfBytes rest from rfl]
    simp [ih]
    omega

lemma mem_hexOfBytes_hex {bs : List Nat} {c : Char} (h : c ∈ hexOfBytes bs) :
    isHexChar c = true := by
  unfold hexOfBytes at h
  rw [List.mem_flatMap] at h
  obtain ⟨b, _, hc⟩ := h
  simp only [List.mem_cons, List.not_mem_nil, or_false] at hc
  rcases hc with rfl | rfl <;> exact hexDigitChar_hex _

lemma spec_hash_length (j : Json) : (spec_hash j).length = 12 := by
  unfold spec_hash
  rw [List.length_take, hexOfBytes_length, sha256_length]
  omega

lemma spec_hash_hex {j : Json} {c : Char} (h : c ∈ spec_hash j) : isHexChar c = true :=
  mem_hexOfBytes_hex (List.mem_of_mem_take h)

/-! ### The key order is a linear order; sorting is canonical -/

lemma keyLe_total : ∀ a b : List Char, keyLe a b = true ∨ keyLe b a = true := by
  intro a
  induction a with
  | nil => intro b; left; rfl
  | cons c a2 ih =>
    intro b
    cases b with
    | nil => right; rfl
    | cons d b2 =>
      show (if c.toNat < d.toNat then true else if d.toNat < c.toNat then false
        else keyLe a2 b2) = true ∨
        (if d.toNat < c.toNat then true else if c.toNat < d.toNat then false
        else keyLe b2 a2) = true
      rcases Nat.lt_trichotomy c.toNat d.toNat with h | h | h
      · left; rw [if_pos h]
      · rw [if_neg (by omega), if_neg (by omega), if_neg (by omega), if_neg (by omega)]
        exact ih b2
      · right; rw [if_pos h]

lemma keyLe_trans : ∀ a b c : List Char,
    keyLe a b = true → keyLe b c = true → keyLe a c = true := by
  intro a
  induction a with
  | nil => intro b c _ _; rfl
  | cons x a2 ih =>
    intro b c hab hbc
    cases b with
    | nil => exact absurd hab (by simp [keyLe])
    | cons y b2 =>
      cases c with
      | nil => exact absurd hbc (by simp [keyLe])
      | cons z c2 =>
        rw [show keyLe (x :: a2) (y :: b2) =
          (if x.toNat < y.toNat then true else if y.toNat < x.toNat then false
            else keyLe a2 b2) from rfl] at hab
        rw [show keyLe (y :: b2) (z :: c2) =
          (if y.toNat < z.toNat then true else if z.toNat < y.toNat then false
            else keyLe b2 c2) from rfl] at hbc
        show (if x.toNat < z.toNat then true else if z.toNat < x.toNat then false
          else keyLe a2 c2) = true
        rcases Nat.lt_trichotomy x.toNat y.toNat with h1 | h1 | h1 <;>
          rcases Nat.lt_trichotomy y.toNat z.toNat with h2 | h2 | h2
        · rw [if_pos (by omega)]
        · rw [if_pos (by omega)]
        · rw [if_neg (by omega), if_pos (by omega)] at hbc
          cases hbc
        · rw [if_pos (by omega)]
        · rw [if_neg (by omega), if_neg (by omega)] at hab
          rw [if_neg (by omega), if_neg (by omega)] at hbc
          rw [if_neg (by omega), if_neg (by omega)]
          exact ih b2 c2 hab hbc
        · rw [if_neg (by omega), if_neg (by omega)] at hab
          rw [if_neg (by omega), if_pos (by omega)] at hbc
          cases hbc
        · rw [if_neg (by omega), if_pos (by omega)] at hab
          cases hab
        · rw [if_neg (by omega), if_pos (by omega)] at hab
          cases hab
        · rw [if_neg (by omega), if_pos (by omega)] at hab
          cases hab

lemma keyLe_antisymm : ∀ a b : List Char,
    keyLe a b = true → keyLe b a = true → a = b := by
  intro a
  induction a with
  | nil =>
    intro b _ hba
    cases b with
    | nil => rfl
    | cons d b2 => exact absurd hba (by simp [keyLe])
  | cons c a2 ih =>
    intro b hab hba
    cases b with
    | nil => exact absurd hab (by simp [keyLe])
    | cons d b2 =>
      rw [show keyLe (c :: a2) (d :: b2) =
        (if c.toNat < d.toNat then true else if d.toNat < c.toNat then false
          else keyLe a2 b2) from rfl] at hab
      rw [show keyLe (d :: b2) (c :: a2) =
        (if d.toNat < c.toNat then true else if c.toNat < d.toNat then false
          else keyLe b2 a2) from rfl] at hba
      rcases Nat.lt_trichotomy c.toNat d.toNat with h | h | h
      · rw [if_neg (by omega), if_pos (by omega)] at hba
        cases hba
      · rw [if_neg (by omega), if_neg (by omega)] at hab hba
        have hcd : c = d := Char.eq_of_val_eq (by
          have h2 : c.val.toNat = d.val.toNat := h
          exact UInt32.toNat.inj h2)
        rw [hcd, ih b2 hab hba]
      · rw [if_neg (by omega), if_pos (by omega)] at hab
        cases hab

/-- Order on object entries: compare keys. -/
def entryLe (p q : List Char × Json) : Prop := keyLe p.1 q.1 = true

lemma insort_perm (e : List Char × Json) :
    ∀ l, (insortEntry e l).Perm (e :: l) := by
  intro l
  induction l with
  | nil => exact List.Perm.refl _
  | cons f rest ih =>
    show (if keyLe e.1 f.1 then e :: f :: rest else f :: insortEntry e rest).Perm _
    split_ifs
    · exact List.Perm.refl _
    · exact (ih.cons f).trans (List.Perm.swap e f rest)

lemma sortEntries_perm : ∀ l, (sortEntries l).Perm l := by
  intro l
  induction l with
  | nil => exact List.Perm.refl _
  | cons e rest ih => exact (insort_perm e _).trans (ih.cons e)

lemma insort_sorted {e : List Char × Json} :
    ∀ {l}, l.Pairwise entryLe → (insortEntry e l).Pairwise entryLe := by
  intro l
  induction l with
  | nil => intro _; exact List.pairwise_singleton _ _
  | cons f rest ih =>
    intro hp
    rw [List.pairwise_cons] at hp
    obtain ⟨hf, hrest⟩ := hp
    show (if keyLe e.1 f.1 then e :: f :: rest else f :: insortEntry e rest).Pairwise entryLe
    split_ifs with hef
    · rw [List.pairwise_cons]
      refine ⟨?_, ?_⟩
      · intro q hq
        rcases List.mem_cons.mp hq with rfl | hq
        · exact hef
        · exact keyLe_trans _ _ _ hef (hf q hq)
      · rw [List.pairwise_cons]
        exact ⟨hf, hrest⟩
    · rw [List.pairwise_cons]
      refine ⟨?_, ih hrest⟩
      intro q hq
      have hq2 := (insort_perm e rest).mem_iff.mp hq
      rcases List.mem_cons.mp hq2 with rfl | hq2
      · rcases keyLe_total q.1 f.1 with h | h
        · exact absurd h hef
        · exact h
      · exact hf q hq2

lemma sortEntries_sorted : ∀ l, (sortEntries l).Pairwise entryLe := by
  intro l
  induction l with
  | nil => exact List.Pairwise.nil
  | cons e rest ih => exact insort_sorted ih

/-- Two key-sorted entry lists that are permutations of each other and
have pairwise-distinct keys are equal. -/
lemma eq_of_perm_sorted :
    ∀ (l1 l2 : List (List Char × Json)), l1.Perm l2 →
      l1.Pairwise entryLe → l2.Pairwise entryLe → (l1.map Prod.fst).Nodup → l1 = l2 := by
  intro l1
  induction l1 with
  | nil =>
    intro l2 hp _ _ _
    have := hp.length_eq
    cases l2 with
    | nil => rfl
    | cons b t2 => simp at this
  | cons a t ih =>
    intro l2 hp hs1 hs2 hnd
    cases l2 with
    | nil =>
      have := hp.length_eq
      simp at this
    | cons b t2 =>
      have hab : a = b := by
        by_contra hne
        have ha2 : a ∈ b :: t2 := hp.mem_iff.mp (by simp)
        have hb1 : b ∈ a :: t := hp.mem_iff.mpr (by simp)
        rcases List.mem_cons.mp ha2 with h | ha2
        · exact hne h
        rcases List.mem_cons.mp hb1 with h | hb1
        · exact hne h.symm
        rw [List.pairwise_cons] at hs1 hs2
        have h1 : keyLe a.1 b.1 = true := hs1.1 b hb1
        have h2 : keyLe b.1 a.1 = true := hs2.1 a ha2
        have hk : a.1 = b.1 := keyLe_antisymm _ _ h1 h2
        rw [List.map_cons, List.nodup_cons] at hnd
        apply hnd.1
        rw [hk]
        exact List.mem_map_of_mem Prod.fst hb1
      subst hab
      have ht : t.Perm t2 := hp.cons_inv
      rw [List.pairwise_cons] at hs1 hs2
      rw [List.map_cons, List.nodup_cons] at hnd
      rw [ih t2 ht hs1.2 hs2.2 hnd.2]

/-! ### Well-formedness (distinct keys) and map-equality of JSON trees -/

def keysOk : Json → Bool
  | .null => true
  | .bool _ => true
  | .num _ => true
  | .str _ => true
  | .arr xs => xs.attach.all (fun x => keysOk x.1)
  | .obj kvs => decide ((kvs.map Prod.fst).Nodup) && kvs.attach.all (fun p => keysOk p.1.2)
decreasing_by
  all_goals simp_wf
  all_goals try (have hs := List.sizeOf_lt_of_mem x.2; omega)
  all_goals try (obtain ⟨⟨k, v⟩, hp⟩ := p
                 have h1 := List.sizeOf_lt_of_mem hp
                 simp at h1 ⊢
                 omega)

lemma keysOk_arr {xs : List Json} (h : keysOk (.arr xs) = true) :
    ∀ x ∈ xs, keysOk x = true := by
  intro x hx
  rw [keysOk] at h
  rw [List.all_eq_true] at h
  exact h ⟨x, hx⟩ (List.mem_attach _ _)

lemma keysOk_obj_nodup {kvs : List (List Char × Json)} (h : keysOk (.obj kvs) = true) :
    (kvs.map Prod.fst).Nodup := by
  rw [keysOk] at h
  rw [Bool.and_eq_true, decide_eq_true_eq] at h
  exact h.1

lemma keysOk_obj_values {kvs : List (List Char × Json)} (h : keysOk (.obj kvs) = true) :
    ∀ p ∈ kvs, keysOk p.2 = true := by
  intro p hp
  rw [keysOk] at h
  rw [Bool.and_eq_true] at h
  have h2 := h.2
  rw [List.all_eq_true] at h2
  exact h2 ⟨p, hp⟩ (List.mem_attach _ _)

/-- Equality of JSON trees as maps: the same tree with the fields of any
nested object permuted (values compared recursively the same way). -/
inductive JPerm : Json → Json → Prop where
  | nul : JPerm .null .null
  | bool (b : Bool) : JPerm (.bool b) (.bool b)
  | num (q : ℚ) : JPerm (.num q) (.num q)
  | str (s : List Char) : JPerm (.str s) (.str s)
  | arr {xs ys : List Json} : List.Forall₂ JPerm xs ys → JPerm (.arr xs) (.arr ys)
  | obj {kvs mid kvs2 : List (List Char × Json)} :
      kvs.map Prod.fst = mid.map Prod.fst →
      List.Forall₂ JPerm (kvs.map Prod.snd) (mid.map Prod.snd) →
      mid.Perm kvs2 → JPerm (.obj kvs) (.obj kvs2)

lemma jcanon_arr (xs : List Json) : jcanon (.arr xs) = .arr (xs.map jcanon) := by
  rw [jcanon]
  congr 1
  exact List.attach_map_val xs jcanon

lemma jcanon_obj (kvs : List (List Char × Json)) :
    jcanon (.obj kvs) = .obj (sortEntries (kvs.map (fun p => (p.1, jcanon p.2)))) := by
  rw [jcanon]
  congr 2
  exact List.attach_map_val kvs (fun p => (p.1, jcanon p.2))

/-- Map-equal trees (distinct keys) have the same canonical form. -/
lemma jperm_canon_aux :
    ∀ n : Nat, ∀ j1 j2 : Json, sizeOf j1 ≤ n → JPerm j1 j2 → keysOk j1 = true →
      jcanon j1 = jcanon j2 := by
  intro n
  induction n with
  | zero =>
    intro j1 j2 hs _ _
    exfalso
    cases j1 <;> simp at hs
  | succ n ih =>
    intro j1 j2 hs hp hk
    cases hp with
    | nul => rfl
    | bool b => rfl
    | num q => rfl
    | str s => rfl
    | @arr xs ys hf =>
      rw [jcanon_arr, jcanon_arr]
      congr 1
      have hsz : ∀ a ∈ xs, sizeOf a ≤ n := by
        intro a ha
        have h1 := List.sizeOf_lt_of_mem ha
        have h2 : sizeOf (Json.arr xs) ≤ n + 1 := hs
        simp only [Json.arr.sizeOf_spec] at h2
        omega
      have hkk : ∀ a ∈ xs, keysOk a = true := keysOk_arr hk
      clear hs hk
      revert hsz hkk
      induction hf with
      | nil => intro _ _; rfl
      | @cons a b as bs hab hrest ihf =>
        intro hsz hkk
        rw [List.map_cons, List.map_cons,
          ih a b (hsz a (by simp)) hab (hkk a (by simp)),
          ihf (fun x hx => hsz x (by simp [hx])) (fun x hx => hkk x (by simp [hx]))]
    | @obj kvs mid kvs2 hkeys hvals hperm =>
      rw [jcanon_obj, jcanon_obj]
      congr 1
      have hsz : ∀ p ∈ kvs, sizeOf p.2 ≤ n := by
        intro p hp2
        have h1 := List.sizeOf_lt_of_mem hp2
        have h2 : sizeOf (Json.obj kvs) ≤ n + 1 := hs
        simp only [Json.obj.sizeOf_spec] at h2
        have h3 : sizeOf p.2 < sizeOf p := by
          obtain ⟨pk, pv⟩ := p
          simp
        omega
      have hkk : ∀ p ∈ kvs, keysOk p.2 = true := keysOk_obj_values hk
      have hstep : ∀ (as bs : List (List Char × Json)),
          as.map Prod.fst = bs.map Prod.fst →
          List.Forall₂ JPerm (as.map Prod.snd) (bs.map Prod.snd) →
          (∀ p ∈ as, sizeOf p.2 ≤ n) → (∀ p ∈ as, keysOk p.2 = true) →
          as.map (fun p => (p.1, jcanon p.2)) = bs.map (fun p => (p.1, jcanon p.2)) := by
        intro as
        induction as with
        | nil =>
          intro bs hkeys2 _ _ _
          cases bs with
          | nil => rfl
          | cons b bs2 => simp at hkeys2
        | cons a as2 ihl =>
          intro bs hkeys2 hvals2 hsz2 hkk2
          cases bs with
          | nil => simp at hkeys2
          | cons b bs2 =>
            rw [List.map_cons, List.map_cons] at hkeys2
            injection hkeys2 with hk1 hkrest
            rw [List.map_cons, List.map_cons] at hvals2
            cases hvals2 with
            | cons hab hrest =>
              rw [List.map_cons, List.map_cons]
              congr 1
              · rw [hk1, ih a.2 b.2 (hsz2 a (by simp)) hab (hkk2 a (by simp))]
              · exact ihl bs2 hkrest hrest (fun p hp2 => hsz2 p (by simp [hp2]))
                  (fun p hp2 => hkk2 p (by simp [hp2]))
      have hmapeq := hstep kvs mid hkeys hvals hsz hkk
      have hperm2 : (kvs.map (fun p => (p.1, jcanon p.2))).Perm
          (kvs2.map (fun p => (p.1, jcanon p.2))) := by
        rw [hmapeq]
        exact hperm.map _
      apply eq_of_perm_sorted
      · exact ((sortEntries_perm _).trans hperm2).trans (sortEntries_perm _).symm
      · exact sortEntries_sorted _
      · exact sortEntries_sorted _
      · have hnd : ((kvs.map (fun p => (p.1, jcanon p.2))).map Prod.fst).Nodup := by
          have hmm : (kvs.map (fun p => (p.1, jcanon p.2))).map Prod.fst =
              kvs.map Prod.fst := by
            rw [List.map_map]
            rfl
          rw [hmm]
          exact keysOk_obj_nodup hk
        have hpm := (sortEntries_perm (kvs.map (fun p => (p.1, jcanon p.2)))).map Prod.fst
        exact hpm.nodup_iff.mpr hnd

lemma jperm_dumps {j1 j2 : Json} (hp : JPerm j1 j2) (hk : keysOk j1 = true) :
    dumps j1 = dumps j2 := by
  unfold dumps
  rw [jperm_canon_aux (sizeOf j1) j1 j2 le_rfl hp hk]

lemma keysOk_obj_intro {kvs : List (List Char × Json)}
    (h1 : (kvs.map Prod.fst).Nodup) (h2 : ∀ p ∈ kvs, keysOk p.2 = true) :
    keysOk (.obj kvs) = true := by
  rw [keysOk, Bool.and_eq_true, decide_eq_true_eq]
  refine ⟨h1, ?_⟩
  rw [List.all_eq_true]
  intro p _
  exact h2 p.1 p.2

lemma keysOk_num (q : ℚ) : keysOk (.num q) = true := by rw [keysOk]

/-- C1: fingerprinting is deterministic and key-order independent — the
hash is a 12-hex-character function of the tree; trees that are equal
as maps (any nested object's fields permuted, keys distinct) have the
same canonical bytes and the same fingerprint. -/
theorem claim_C1 :
    (∀ j : Json, spec_hash j = spec_hash j) ∧
    (∀ j : Json, (spec_hash j).length = 12 ∧ ∀ c ∈ spec_hash j, isHexChar c = true) ∧
    (∀ j1 j2 : Json, JPerm j1 j2 → keysOk j1 = true →
      dumps j1 = dumps j2 ∧ spec_hash j1 = spec_hash j2) := by
  refine ⟨fun j => rfl, fun j => ⟨spec_hash_length j, fun c hc => spec_hash_hex hc⟩, ?_⟩
  intro j1 j2 hp hk
  have hd := jperm_dumps hp hk
  refine ⟨hd, ?_⟩
  unfold spec_hash
  rw [hd]

/-- Witness for C1: permuting the two keys of a concrete object leaves
the canonical bytes and the fingerprint unchanged. -/
theorem claim_C1_witness :
    dumps (.obj [("a".data, .num 1), ("b".data, .num 2)]) =
      dumps (.obj [("b".data, .num 2), ("a".data, .num 1)]) ∧
    spec_hash (.obj [("a".data, .num 1), ("b".data, .num 2)]) =
      spec_hash (.obj [("b".data, .num 2), ("a".data, .num 1)]) :=
  (claim_C1.2.2 _ _
    (@JPerm.obj [("a".data, .num 1), ("b".data, .num 2)]
      [("a".data, .num 1), ("b".data, .num 2)]
      [("b".data, .num 2), ("a".data, .num 1)] rfl
      (List.Forall₂.cons (JPerm.num 1) (List.Forall₂.cons (JPerm.num 2) List.Forall₂.nil))
      (List.Perm.swap ("b".data, Json.num 2) ("a".data, Json.num 1) []))
    (keysOk_obj_intro (by decide)
      (by
        intro p hp
        rcases List.mem_cons.mp hp with rfl | hp
        · exact keysOk_num 1
        · rcases List.mem_cons.mp hp with rfl | hp
          · exact keysOk_num 2
          · simp at hp)))

/-- C7: the position validator accepts a string exactly when it is
optional whitespace, three signed decimal numbers separated by commas
with optional whitespace around them (no scientific exponent, exactly
three components); the quoted concrete strings are accepted/rejected
accordingly. -/
theorem claim_C7 :
    (∀ l : List Char, validate_position_str l = true ↔ PositionGrammar l) ∧
    validate_position_str "1,2,3".data = true ∧
    validate_position_str "-1.5, 0, 10.25".data = true ∧
    validate_position_str "1,2".data = false ∧
    validate_position_str "a,b,c".data = false ∧
    validate_position_str "1,2,3,4".data = false :=
  ⟨fun _ => validate_position_str_iff, by decide, by decide, by decide, by decide, by decide⟩

/-! ### `model_dump` (Spec → Json) and re-validation (Json → Spec) -/

def metaToJson (m : Meta) : Json :=
  .obj [("backend".data, .str m.backend.data), ("name".data, .str m.name.data),
        ("duration_s".data, .num m.duration_s)]

def pmToJson (pm : PropagationModel) : Json :=
  .obj [("model".data, .str pm.model.data), ("exp".data, .num pm.exp),
        ("s".data, match pm.s with | none => .null | some v => .num v)]

def netsToJson (n : Nets) : Json :=
  .obj [("noise_th".data, .num n.noise_th),
        ("propagation_model".data, pmToJson n.propagation_model)]

def apToJson (a : AP) : Json :=
  .obj [("id".data, .str a.id.data), ("mode".data, .str a.mode.data),
        ("channel".data, .num a.channel), ("ssid".data, .str a.ssid.data),
        ("position".data, .str a.position.data)]

def stationToJson (st : Station) : Json :=
  .obj [("id".data, .str st.id.data), ("position".data, .str st.position.data)]

def topoToJson (t : Topology) : Json :=
  .obj [("nets".data, netsToJson t.nets),
        ("aps".data, .arr (t.aps.map apToJson)),
        ("stations".data, .arr (t.stations.map stationToJson))]

def testToJson : TestVariant → Json
  | .move t =>
    .obj [("name".data, .str t.name.data), ("type".data, .str "node movements".data),
          ("timeframe".data, .num t.timeframe), ("node".data, .str t.node.data),
          ("position".data, .str t.position.data)]
  | .iw t =>
    .obj [("name".data, .str t.name.data), ("type".data, .str "iw".data),
          ("cmd".data, .str t.cmd.data)]

/-- The entries of `spec.model_dump()` in pydantic field order. -/
def specEntries (s : Spec) : List (List Char × Json) :=
  [("schemaVersion".data, .str s.schemaVersion.data),
   ("meta".data, metaToJson s.meta),
   ("topo".data, topoToJson s.topo),
   ("tests".data, .arr (s.tests.map testToJson)),
   ("username".data, .str s.username.data),
   ("password".data, .str s.password.data),
   ("address".data, .str s.address.data)]

def specToJson (s : Spec) : Json := .obj (specEntries s)

/-- Python dict lookup on an association list. -/
def jlookup (k : List Char) : List (List Char × Json) → Option Json
  | [] => none
  | (k2, v) :: rest => if k2 = k then some v else jlookup k rest

def asStr : Json → Option (List Char)
  | .str s => some s
  | _ => none

def asInt : Json → Option Int
  | .num q => if q.den = 1 then some q.num else none
  | _ => none

def asQ : Json → Option ℚ
  | .num q => some q
  | _ => none

def asOptQ : Json → Option (Option ℚ)
  | .null => some none
  | .num q => some (some q)
  | _ => none

def parseList {α : Type} (f : Json → Option α) : List Json → Option (List α)
  | [] => some []
  | j :: rest =>
    match f j, parseList f rest with
    | some a, some as2 => some (a :: as2)
    | _, _ => none

/-- `Meta(**..)`: typed fields plus the pydantic field constraints;
unknown keys are ignored (pydantic's default `extra='ignore'`). -/
def parseMeta (j : Json) : Option Meta :=
  match j with
  | .obj kvs =>
    (jlookup "backend".data kvs).bind fun jb =>
    (jlookup "name".data kvs).bind fun jn =>
    (jlookup "duration_s".data kvs).bind fun jd =>
    (asStr jb).bind fun b =>
    (asStr jn).bind fun nm =>
    (asInt jd).bind fun d =>
    let m : Meta := ⟨⟨b⟩, ⟨nm⟩, d⟩
    if metaValid m then some m else none
  | _ => none

def parsePM (j : Json) : Option PropagationModel :=
  match j with
  | .obj kvs =>
    (jlookup "model".data kvs).bind fun jm =>
    (jlookup "exp".data kvs).bind fun je =>
    (asStr jm).bind fun mo =>
    (asQ je).bind fun e =>
    (match jlookup "s".data kvs with
     | none => some none
     | some js => asOptQ js).bind fun sv =>
    let pm : PropagationModel := ⟨⟨mo⟩, e, sv⟩
    if pmValid pm then some pm else none
  | _ => none

def parseNets (j : Json) : Option Nets :=
  match j with
  | .obj kvs =>
    (jlookup "noise_th".data kvs).bind fun jq =>
    (asQ jq).bind fun q =>
    (jlookup "propagation_model".data kvs).bind fun jp =>
    (parsePM jp).bind fun pm =>
    let n : Nets := ⟨q, pm⟩
    if netsValid n then some n else none
  | _ => none

def parseAP (j : Json) : Option AP :=
  match j with
  | .obj kvs =>
    (jlookup "id".data kvs).bind fun ji =>
    (jlookup "mode".data kvs).bind fun jm =>
    (jlookup "channel".data kvs).bind fun jc =>
    (jlookup "ssid".data kvs).bind fun js =>
    (jlookup "position".data kvs).bind fun jp =>
    (asStr ji).bind fun i =>
    (asStr jm).bind fun mo =>
    (asInt jc).bind fun c =>
    (asStr js).bind fun ss =>
    (asStr jp).bind fun ps =>
    let a : AP := ⟨⟨i⟩, ⟨mo⟩, c, ⟨ss⟩, ⟨ps⟩⟩
    if apValid a then some a else none
  | _ => none

def parseStation (j : Json) : Option Station :=
  match j with
  | .obj kvs =>
    (jlookup "id".data kvs).bind fun ji =>
    (jlookup "position".data kvs).bind fun jp =>
    (asStr ji).bind fun i =>
    (asStr jp).bind fun ps =>
    let st : Station := ⟨⟨i⟩, ⟨ps⟩⟩
    if stationValid st then some st else none
  | _ => none

def parseTopology (j : Json) : Option Topology :=
  match j with
  | .obj kvs =>
    (jlookup "nets".data kvs).bind fun jn =>
    (parseNets jn).bind fun nets =>
    (match jlookup "aps".data kvs with
     | none => some []
     | some (.arr xs) => parseList parseAP xs
     | some _ => none).bind fun aps =>
    (match jlookup "stations".data kvs with
     | none => some []
     | some (.arr xs) => parseList parseStation xs
     | some _ => none).bind fun stations =>
    some ⟨nets, aps, stations⟩
  | _ => none

/-- The `TestMove | TestIw` union: dispatch on the `type` literal. -/
def parseTest (j : Json) : Option TestVariant :=
  match j with
  | .obj kvs =>
    (jlookup "type".data kvs).bind fun jt =>
    (asStr jt).bind fun ty =>
    if ty = "node movements".data then
      (jlookup "name".data kvs).bind fun jn =>
      (jlookup "timeframe".data kvs).bind fun jf =>
      (jlookup "node".data kvs).bind fun jo =>
      (jlookup "position".data kvs).bind fun jp =>
      (asStr jn).bind fun nm =>
      (asInt jf).bind fun tf =>
      (asStr jo).bind fun nd =>
      (asStr jp).bind fun ps =>
      let t : TestVariant := .move ⟨⟨nm⟩, tf, ⟨nd⟩, ⟨ps⟩⟩
      if testValid t then some t else none
    else if ty = "iw".data then
      (jlookup "name".data kvs).bind fun jn =>
      (jlookup "cmd".data kvs).bind fun jc =>
      (asStr jn).bind fun nm =>
      (asStr jc).bind fun c =>
      some (.iw ⟨⟨nm⟩, ⟨c⟩⟩)
    else none
  | _ => none

/-- `Spec(**data)`: required fields plus the optional credential fields
defaulting to the empty string. -/
def parseSpec (j : Json) : Option Spec :=
  match j with
  | .obj kvs =>
    (jlookup "schemaVersion".data kvs).bind fun jsv =>
    (asStr jsv).bind fun sv =>
    (match jlookup "username".data kvs with
     | none => some []
     | some ju => asStr ju).bind fun u =>
    (match jlookup "password".data kvs with
     | none => some []
     | some jp => asStr jp).bind fun pw =>
    (match jlookup "address".data kvs with
     | none => some []
     | some ja => asStr ja).bind fun ad =>
    (jlookup "meta".data kvs).bind fun jm =>
    (parseMeta jm).bind fun m =>
    (jlookup "topo".data kvs).bind fun jt =>
    (parseTopology jt).bind fun tp =>
    (jlookup "tests".data kvs).bind fun jts =>
    (match jts with
     | .arr txs => parseList parseTest txs
     | _ => none).bind fun ts =>
    some ⟨⟨sv⟩, m, tp, ts, ⟨u⟩, ⟨pw⟩, ⟨ad⟩⟩
  | _ => none

/-- `norm.setdefault("meta", {})["schema_hash"] = h`. -/
def attachHash (j : Json) (h : List Char) : Json :=
  match j with
  | .obj kvs =>
    if kvs.any (fun p => p.1 = "meta".data) then
      .obj (kvs.map (fun p =>
        if p.1 = "meta".data then
          (p.1, match p.2 with
            | .obj m => Json.obj (m ++ [("schema_hash".data, .str h)])
            | v => v)
        else p))
    else .obj (kvs ++ [("meta".data, .obj [("schema_hash".data, .str h)])])
  | v => v

/-- The normalization step of `main`: dump, fingerprint the dump, then
attach the fingerprint into `meta`. -/
def normalize (s : Spec) : Json :=
  attachHash (specToJson s) (spec_hash (specToJson s))

def getMetaHash (j : Json) : Option Json :=
  match j with
  | .obj kvs =>
    match jlookup "meta".data kvs with
    | some (.obj m) => jlookup "schema_hash".data m
    | _ => none
  | _ => none

def stripSchemaHash (j : Json) : Json :=
  match j with
  | .obj kvs =>
    .obj (kvs.map (fun p =>
      if p.1 = "meta".data then
        (p.1, match p.2 with
          | .obj m => Json.obj (m.filter (fun q => ¬ (q.1 = "schema_hash".data)))
          | v => v)
      else p))
  | v => v

/-! ### Round-trip: re-validating the normalized dump restores the Spec -/

lemma parseMeta_roundtrip {m : Meta} (h : metaValid m = true) :
    parseMeta (metaToJson m) = some m := by
  show (if metaValid m then some m else none) = some m
  rw [if_pos h]

lemma parseMeta_hash_roundtrip {m : Meta} (v : Json) (h : metaValid m = true) :
    parseMeta (.obj ([("backend".data, .str m.backend.data), ("name".data, .str m.name.data),
      ("duration_s".data, .num m.duration_s)] ++ [("schema_hash".data, v)])) = some m := by
  show (if metaValid m then some m else none) = some m
  rw [if_pos h]

lemma parsePM_roundtrip {pm : PropagationModel} (h : pmValid pm = true) :
    parsePM (pmToJson pm) = some pm := by
  obtain ⟨mo, e, sv⟩ := pm
  cases sv with
  | none =>
    show (if pmValid ⟨mo, e, none⟩ then some ⟨mo, e, none⟩ else none) =
      some (⟨mo, e, none⟩ : PropagationModel)
    rw [if_pos h]
  | some v =>
    show (if pmValid ⟨mo, e, some v⟩ then some ⟨mo, e, some v⟩ else none) =
      some (⟨mo, e, some v⟩ : PropagationModel)
    rw [if_pos h]

lemma parseNets_roundtrip {n : Nets} (h : netsValid n = true) :
    parseNets (netsToJson n) = some n := by
  have hpm : pmValid n.propagation_model = true := by
    unfold netsValid at h
    rw [Bool.and_eq_true] at h
    exact h.2
  show ((parsePM (pmToJson n.propagation_model)).bind fun pm =>
    if netsValid ⟨n.noise_th, pm⟩ then some (⟨n.noise_th, pm⟩ : Nets) else none) = some n
  rw [parsePM_roundtrip hpm]
  show (if netsValid n then some n else none) = some n
  rw [if_pos h]

lemma parseAP_roundtrip {a : AP} (h : apValid a = true) :
    parseAP (apToJson a) = some a := by
  show (if apValid a then some a else none) = some a
  rw [if_pos h]

lemma parseStation_roundtrip {st : Station} (h : stationValid st = true) :
    parseStation (stationToJson st) = some st := by
  show (if stationValid st then some st else none) = some st
  rw [if_pos h]

lemma parseTest_roundtrip {t : TestVariant} (h : testValid t = true) :
    parseTest (testToJson t) = some t := by
  cases t with
  | move m =>
    show (if testValid (.move m) then some (TestVariant.move m) else none) =
      some (TestVariant.move m)
    rw [if_pos h]
  | iw m => rfl

lemma parseList_roundtrip {α : Type} (f : Json → Option α) (enc : α → Json) :
    ∀ {l : List α}, (∀ x ∈ l, f (enc x) = some x) → parseList f (l.map enc) = some l := by
  intro l
  induction l with
  | nil => intro _; rfl
  | cons x xs ih =>
    intro h
    show (match f (enc x), parseList f (xs.map enc) with
      | some a, some as2 => some (a :: as2)
      | _, _ => none) = some (x :: xs)
    rw [h x (by simp), ih (fun y hy => h y (by simp [hy]))]

lemma parseTopology_roundtrip {t : Topology} (hn : netsValid t.nets = true)
    (ha : ∀ a ∈ t.aps, apValid a = true) (hs : ∀ st ∈ t.stations, stationValid st = true) :
    parseTopology (topoToJson t) = some t := by
  show ((parseNets (netsToJson t.nets)).bind fun nets =>
    (parseList parseAP (t.aps.map apToJson)).bind fun aps =>
    (parseList parseStation (t.stations.map stationToJson)).bind fun stations =>
    some ⟨nets, aps, stations⟩) = some t
  rw [parseNets_roundtrip hn]
  simp only [Option.some_bind]
  rw [parseList_roundtrip parseAP apToJson (fun a hax => parseAP_roundtrip (ha a hax))]
  simp only [Option.some_bind]
  rw [parseList_roundtrip parseStation stationToJson
    (fun st hst => parseStation_roundtrip (hs st hst))]
  rfl

lemma parseSpec_attach {s : Spec} (h : specValid s = true) (v : List Char) :
    parseSpec (attachHash (specToJson s) v) = some s := by
  unfold specValid at h
  simp only [Bool.and_eq_true] at h
  obtain ⟨⟨⟨⟨hm, hn⟩, haps⟩, hstas⟩, hts⟩ := h
  rw [List.all_eq_true] at haps hstas hts
  have e1 : attachHash (specToJson s) v = Json.obj
      [("schemaVersion".data, .str s.schemaVersion.data),
       ("meta".data, .obj ([("backend".data, .str s.meta.backend.data),
          ("name".data, .str s.meta.name.data),
          ("duration_s".data, .num s.meta.duration_s)] ++
          [("schema_hash".data, .str v)])),
       ("topo".data, topoToJson s.topo),
       ("tests".data, .arr (s.tests.map testToJson)),
       ("username".data, .str s.username.data),
       ("password".data, .str s.password.data),
       ("address".data, .str s.address.data)] := rfl
  rw [e1]
  show ((parseMeta (.obj ([("backend".data, .str s.meta.backend.data),
          ("name".data, .str s.meta.name.data),
          ("duration_s".data, .num s.meta.duration_s)] ++
          [("schema_hash".data, .str v)]))).bind fun m =>
    (parseTopology (topoToJson s.topo)).bind fun tp =>
    (parseList parseTest (s.tests.map testToJson)).bind fun ts =>
    some ⟨⟨s.schemaVersion.data⟩, m, tp, ts, ⟨s.username.data⟩, ⟨s.password.data⟩,
      ⟨s.address.data⟩⟩) = some s
  rw [parseMeta_hash_roundtrip (.str v) hm]
  simp only [Option.some_bind]
  rw [parseTopology_roundtrip hn haps hstas]
  simp only [Option.some_bind]
  rw [parseList_roundtrip parseTest testToJson (fun t ht => parseTest_roundtrip (hts t ht))]
  rfl

/-- C8: the fingerprint is computed over the dump before being attached
(`schema_hash` in `meta` equals the hash of the spec without that
field), re-validating the normalized spec restores the very same Spec
(the extra `schema_hash` key is dropped), and a second pipeline run
yields byte-identical canonical output with the same hash. -/
theorem claim_C8 (s : Spec) (h : specValid s = true) :
    parseSpec (normalize s) = some s ∧
    (∀ s2 : Spec, parseSpec (normalize s) = some s2 →
      dumps (normalize s2) = dumps (normalize s) ∧
      getMetaHash (normalize s2) = getMetaHash (normalize s)) ∧
    getMetaHash (normalize s) = some (.str (spec_hash (specToJson s))) ∧
    stripSchemaHash (normalize s) = specToJson s ∧
    spec_hash (stripSchemaHash (normalize s)) = spec_hash (specToJson s) := by
  have h1 : parseSpec (normalize s) = some s := parseSpec_attach h _
  refine ⟨h1, ?_, rfl, rfl, rfl⟩
  intro s2 h2
  rw [h1] at h2
  injection h2 with h3
  rw [h3]
  exact ⟨rfl, rfl⟩

/-- Witness for C8 at a concrete structurally valid spec. -/
theorem claim_C8_witness :
    parseSpec (normalize exC4) = some exC4 ∧
    getMetaHash (normalize exC4) = some (.str (spec_hash (specToJson exC4))) ∧
    stripSchemaHash (normalize exC4) = specToJson exC4 := by
  have h := claim_C8 exC4 (by decide)
  exact ⟨h.1, h.2.2.1, h.2.2.2.1⟩

/-! ### The string escaper is injective (prefix-free code) -/

def hexVal (c : Char) : Option Nat :=
  if c = '0' then some 0 else if c = '1' then some 1 else if c = '2' then some 2
  else if c = '3' then some 3 else if c = '4' then some 4 else if c = '5' then some 5
  else if c = '6' then some 6 else if c = '7' then some 7 else if c = '8' then some 8
  else if c = '9' then some 9 else if c = 'a' then some 10 else if c = 'b' then some 11
  else if c = 'c' then some 12 else if c = 'd' then some 13 else if c = 'e' then some 14
  else if c = 'f' then some 15 else none

lemma hexVal_hexDigitChar {x : Nat} (h : x < 16) : hexVal (hexDigitChar x) = some x := by
  interval_cases x <;> rfl

/-- Continuation of the decoder after a hex quad worth `v`. -/
def decodeU (v : Nat) (rest3 : List Char) : Option (Char × List Char) :=
  if 55296 ≤ v ∧ v < 56320 then
    match rest3 with
    | e0 :: e5 :: e1 :: e2 :: e3 :: e4 :: rest4 =>
      if e0 = '\\' ∧ e5 = 'u' then
        (hexVal e1).bind fun w1 =>
        (hexVal e2).bind fun w2 =>
        (hexVal e3).bind fun w3 =>
        (hexVal e4).bind fun w4 =>
        if 56320 ≤ w1 * 4096 + w2 * 256 + w3 * 16 + w4 ∧
            w1 * 4096 + w2 * 256 + w3 * 16 + w4 < 57344 then
          some (Char.ofNat (65536 + (v - 55296) * 1024 +
            (w1 * 4096 + w2 * 256 + w3 * 16 + w4 - 56320)), rest4)
        else none
      else none
    | _ => none
  else if v < 55296 ∨ 57344 ≤ v then some (Char.ofNat v, rest3)
  else none

def escDecodeU : List Char → Option (Char × List Char)
  | d1 :: d2 :: d3 :: d4 :: rest3 =>
    (hexVal d1).bind fun v1 =>
    (hexVal d2).bind fun v2 =>
    (hexVal d3).bind fun v3 =>
    (hexVal d4).bind fun v4 =>
    decodeU (v1 * 4096 + v2 * 256 + v3 * 16 + v4) rest3
  | _ => none

def escDecodeEsc : List Char → Option (Char × List Char)
  | [] => none
  | d :: rest2 =>
    if d = '\\' then some ('\\', rest2)
    else if d = '"' then some ('"', rest2)
    else if d = 'n' then some ('\n', rest2)
    else if d = 't' then some ('\t', rest2)
    else if d = 'r' then some ('\r', rest2)
    else if d = 'b' then some ('\x08', rest2)
    else if d = 'f' then some ('\x0c', rest2)
    else if d = 'u' then escDecodeU rest2
    else none

/-- A one-character decoder inverting `escChar`. -/
def escDecode : List Char → Option (Char × List Char)
  | [] => none
  | c :: rest => if c = '\\' then escDecodeEsc rest else some (c, rest)

lemma escDecodeU_cons (d1 d2 d3 d4 : Char) (r : List Char) :
    escDecodeU (d1 :: d2 :: d3 :: d4 :: r) =
      ((hexVal d1).bind fun v1 =>
       (hexVal d2).bind fun v2 =>
       (hexVal d3).bind fun v3 =>
       (hexVal d4).bind fun v4 =>
       decodeU (v1 * 4096 + v2 * 256 + v3 * 16 + v4) r) := rfl

lemma decodeU_cons6 (v : Nat) (e0 e5 e1 e2 e3 e4 : Char) (r4 : List Char) :
    decodeU v (e0 :: e5 :: e1 :: e2 :: e3 :: e4 :: r4) =
      if 55296 ≤ v ∧ v < 56320 then
        (if e0 = '\\' ∧ e5 = 'u' then
          (hexVal e1).bind fun w1 =>
          (hexVal e2).bind fun w2 =>
          (hexVal e3).bind fun w3 =>
          (hexVal e4).bind fun w4 =>
          if 56320 ≤ w1 * 4096 + w2 * 256 + w3 * 16 + w4 ∧
              w1 * 4096 + w2 * 256 + w3 * 16 + w4 < 57344 then
            some (Char.ofNat (65536 + (v - 55296) * 1024 +
              (w1 * 4096 + w2 * 256 + w3 * 16 + w4 - 56320)), r4)
          else none
        else none)
      else if v < 55296 ∨ 57344 ≤ v then
        some (Char.ofNat v, e0 :: e5 :: e1 :: e2 :: e3 :: e4 :: r4)
      else none := rfl

lemma char_ofNat_toNat (c : Char) : Char.ofNat c.toNat = c := by
  apply Char.eq_of_val_eq
  rw [Char.ofNat, dif_pos ?_]
  · rfl
  · exact c.valid

lemma escDecodeU_surrogate (hi lo : Nat) (hh1 : 55296 ≤ hi) (hh2 : hi < 56320)
    (hl1 : 56320 ≤ lo) (hl2 : lo < 57344) (r : List Char) :
    escDecodeU (hexDigitChar (hi / 4096 % 16) :: hexDigitChar (hi / 256 % 16) ::
      hexDigitChar (hi / 16 % 16) :: hexDigitChar (hi % 16) :: '\\' :: 'u' ::
      hexDigitChar (lo / 4096 % 16) :: hexDigitChar (lo / 256 % 16) ::
      hexDigitChar (lo / 16 % 16) :: hexDigitChar (lo % 16) :: r) =
      some (Char.ofNat (65536 + (hi - 55296) * 1024 + (lo - 56320)), r) := by
  rw [escDecodeU_cons]
  rw [hexVal_hexDigitChar (Nat.mod_lt _ (by norm_num)),
    hexVal_hexDigitChar (Nat.mod_lt _ (by norm_num)),
    hexVal_hexDigitChar (Nat.mod_lt _ (by norm_num)),
    hexVal_hexDigitChar (Nat.mod_lt _ (by norm_num))]
  simp only [Option.some_bind]
  have hhi : hi / 4096 % 16 * 4096 + hi / 256 % 16 * 256 + hi / 16 % 16 * 16 + hi % 16 =
      hi := by omega
  rw [hhi, decodeU_cons6, if_pos (by omega), if_pos (by exact ⟨rfl, rfl⟩)]
  rw [hexVal_hexDigitChar (Nat.mod_lt _ (by norm_num)),
    hexVal_hexDigitChar (Nat.mod_lt _ (by norm_num)),
    hexVal_hexDigitChar (Nat.mod_lt _ (by norm_num)),
    hexVal_hexDigitChar (Nat.mod_lt _ (by norm_num))]
  simp only [Option.some_bind]
  have hlo : lo / 4096 % 16 * 4096 + lo / 256 % 16 * 256 + lo / 16 % 16 * 16 + lo % 16 =
      lo := by omega
  rw [hlo, if_pos (by omega)]

lemma escDecode_escChar (c : Char) (r : List Char) :
    escDecode (escChar c ++ r) = some (c, r) := by
  by_cases h1 : c = '\\'
  · subst h1; rfl
  by_cases h2 : c = '"'
  · subst h2; rfl
  by_cases h3 : c = '\n'
  · subst h3; rfl
  by_cases h4 : c = '\t'
  · subst h4; rfl
  by_cases h5 : c = '\r'
  · subst h5; rfl
  by_cases h6 : c = '\x08'
  · subst h6; rfl
  by_cases h7 : c = '\x0c'
  · subst h7; rfl
  have hval0 := c.valid
  rw [UInt32.isValidChar, Nat.isValidChar] at hval0
  have hval : c.toNat < 55296 ∨ 57343 < c.toNat ∧ c.toNat < 1114112 := hval0
  by_cases h8 : c.toNat < 32 ∨ 128 ≤ c.toNat
  · by_cases h9 : c.toNat < 65536
    · have he : escChar c ++ r = '\\' :: 'u' :: hexDigitChar (c.toNat / 4096 % 16) ::
          hexDigitChar (c.toNat / 256 % 16) :: hexDigitChar (c.toNat / 16 % 16) ::
          hexDigitChar (c.toNat % 16) :: r := by
        unfold escChar hex4
        rw [if_neg h1, if_neg h2, if_neg h3, if_neg h4, if_neg h5, if_neg h6, if_neg h7,
          if_pos h8, if_pos h9]
        rfl
      rw [he]
      rw [show escDecode ('\\' :: 'u' :: hexDigitChar (c.toNat / 4096 % 16) ::
          hexDigitChar (c.toNat / 256 % 16) :: hexDigitChar (c.toNat / 16 % 16) ::
          hexDigitChar (c.toNat % 16) :: r) =
        escDecodeU (hexDigitChar (c.toNat / 4096 % 16) :: hexDigitChar (c.toNat / 256 % 16) ::
          hexDigitChar (c.toNat / 16 % 16) :: hexDigitChar (c.toNat % 16) :: r) from rfl]
      rw [escDecodeU_cons]
      rw [hexVal_hexDigitChar (Nat.mod_lt _ (by norm_num)),
        hexVal_hexDigitChar (Nat.mod_lt _ (by norm_num)),
        hexVal_hexDigitChar (Nat.mod_lt _ (by norm_num)),
        hexVal_hexDigitChar (Nat.mod_lt _ (by norm_num))]
      simp only [Option.some_bind]
      have hv : c.toNat / 4096 % 16 * 4096 + c.toNat / 256 % 16 * 256 +
          c.toNat / 16 % 16 * 16 + c.toNat % 16 = c.toNat := by omega
      rw [hv]
      unfold decodeU
      have hns : ¬ (55296 ≤ c.toNat ∧ c.toNat < 56320) := by
        rcases hval with hlt | ⟨hge, _⟩ <;> omega
      rw [if_neg hns, if_pos (by rcases hval with hlt | ⟨hge, _⟩ <;> omega)]
      rw [char_ofNat_toNat]
    · have he : escChar c ++ r = '\\' :: 'u' ::
          hexDigitChar ((55296 + (c.toNat - 65536) / 1024) / 4096 % 16) ::
          hexDigitChar ((55296 + (c.toNat - 65536) / 1024) / 256 % 16) ::
          hexDigitChar ((55296 + (c.toNat - 65536) / 1024) / 16 % 16) ::
          hexDigitChar ((55296 + (c.toNat - 65536) / 1024) % 16) :: '\\' :: 'u' ::
          hexDigitChar ((56320 + (c.toNat - 65536) % 1024) / 4096 % 16) ::
          hexDigitChar ((56320 + (c.toNat - 65536) % 1024) / 256 % 16) ::
          hexDigitChar ((56320 + (c.toNat - 65536) % 1024) / 16 % 16) ::
          hexDigitChar ((56320 + (c.toNat - 65536) % 1024) % 16) :: r := by
        unfold escChar hex4
        rw [if_neg h1, if_neg h2, if_neg h3, if_neg h4, if_neg h5, if_neg h6, if_neg h7,
          if_pos h8, if_neg h9]
        rfl
      rw [he]
      rw [show escDecode ('\\' :: 'u' ::
          hexDigitChar ((55296 + (c.toNat - 65536) / 1024) / 4096 % 16) ::
          hexDigitChar ((55296 + (c.toNat - 65536) / 1024) / 256 % 16) ::
          hexDigitChar ((55296 + (c.toNat - 65536) / 1024) / 16 % 16) ::
          hexDigitChar ((55296 + (c.toNat - 65536) / 1024) % 16) :: '\\' :: 'u' ::
          hexDigitChar ((56320 + (c.toNat - 65536) % 1024) / 4096 % 16) ::
          hexDigitChar ((56320 + (c.toNat - 65536) % 1024) / 256 % 16) ::
          hexDigitChar ((56320 + (c.toNat - 65536) % 1024) / 16 % 16) ::
          hexDigitChar ((56320 + (c.toNat - 65536) % 1024) % 16) :: r) =
        escDecodeU (hexDigitChar ((55296 + (c.toNat - 65536) / 1024) / 4096 % 16) ::
          hexDigitChar ((55296 + (c.toNat - 65536) / 1024) / 256 % 16) ::
          hexDigitChar ((55296 + (c.toNat - 65536) / 1024) / 16 % 16) ::
          hexDigitChar ((55296 + (c.toNat - 65536) / 1024) % 16) :: '\\' :: 'u' ::
          hexDigitChar ((56320 + (c.toNat - 65536) % 1024) / 4096 % 16) ::
          hexDigitChar ((56320 + (c.toNat - 65536) % 1024) / 256 % 16) ::
          hexDigitChar ((56320 + (c.toNat - 65536) % 1024) / 16 % 16) ::
          hexDigitChar ((56320 + (c.toNat - 65536) % 1024) % 16) :: r) from rfl]
      have hub : c.toNat < 1114112 := by
        rcases hval with hlt | ⟨_, hub2⟩ <;> omega
      have hdiv : (c.toNat - 65536) / 1024 < 1024 := by omega
      have hmod : (c.toNat - 65536) % 1024 < 1024 := Nat.mod_lt _ (by norm_num)
      rw [escDecodeU_surrogate (55296 + (c.toNat - 65536) / 1024)
        (56320 + (c.toNat - 65536) % 1024) (by omega) (by omega) (by omega) (by omega)]
      have hrec : 65536 + (55296 + (c.toNat - 65536) / 1024 - 55296) * 1024 +
          (56320 + (c.toNat - 65536) % 1024 - 56320) = c.toNat := by omega
      rw [hrec, char_ofNat_toNat]
  · have he : escChar c = [c] := by
      unfold escChar
      rw [if_neg h1, if_neg h2, if_neg h3, if_neg h4, if_neg h5, if_neg h6, if_neg h7,
        if_neg h8]
    rw [he]
    show (if c = '\\' then escDecodeEsc r else some (c, r)) = some (c, r)
    rw [if_neg h1]

lemma escChar_append_head (c : Char) (r : List Char) :
    ∃ x, (escChar c ++ r).head? = some x ∧ x ≠ '"' := by
  unfold escChar
  split_ifs with h1 h2 h3 h4 h5 h6 h7 h8 h9
  all_goals first
    | exact ⟨'\\', rfl, by decide⟩
    | exact ⟨c, rfl, h2⟩

/-- The escaped forms of two strings followed by the closing quote
determine the strings (and what follows): the escape code is prefix-free
and never emits a bare quote. -/
lemma escString_append_quote_inj :
    ∀ (a b t1 t2 : List Char),
      escString a ++ '"' :: t1 = escString b ++ '"' :: t2 → a = b ∧ t1 = t2 := by
  intro a
  induction a with
  | nil =>
    intro b t1 t2 h
    cases b with
    | nil =>
      simp only [escString, List.flatMap_nil, List.nil_append] at h
      injection h with h1 h2
      exact ⟨rfl, h2⟩
    | cons d b2 =>
      exfalso
      simp only [escString, List.flatMap_nil, List.nil_append, List.flatMap_cons,
        List.append_assoc] at h
      obtain ⟨x, hx, hne⟩ := escChar_append_head d (b2.flatMap escChar ++ '"' :: t2)
      rw [← h] at hx
      simp only [List.head?_cons] at hx
      injection hx with he
      exact hne he.symm
  | cons c a2 ih =>
    intro b t1 t2 h
    cases b with
    | nil =>
      exfalso
      simp only [escString, List.flatMap_nil, List.nil_append, List.flatMap_cons,
        List.append_assoc] at h
      obtain ⟨x, hx, hne⟩ := escChar_append_head c (a2.flatMap escChar ++ '"' :: t1)
      rw [h] at hx
      simp only [List.head?_cons] at hx
      injection hx with he
      exact hne he.symm
    | cons d b2 =>
      simp only [escString, List.flatMap_cons, List.append_assoc] at h
      have h2 := congrArg escDecode h
      rw [escDecode_escChar, escDecode_escChar] at h2
      injection h2 with h3
      rw [Prod.mk.injEq] at h3
      obtain ⟨hcd, htail⟩ := h3
      obtain ⟨hab, ht⟩ := ih b2 t1 t2 htail
      exact ⟨by rw [hcd, hab], ht⟩

/-! ### The credential fields in the canonical bytes -/

lemma jcanon_str (s : List Char) : jcanon (.str s) = .str s := by
  rw [jcanon]

lemma dumpsRaw_str (s : List Char) : dumpsRaw (.str s) = '"' :: escString s ++ ['"'] := by
  rw [dumpsRaw]

lemma dumpsRaw_obj (kvs : List (List Char × Json)) :
    dumpsRaw (.obj kvs) = '{' :: joinComma (kvs.map
      (fun p => '"' :: escString p.1 ++ '"' :: ':' :: ' ' :: dumpsRaw p.2)) ++ ['}'] := by
  rw [dumpsRaw]
  congr 3
  exact List.attach_map_val kvs
    (fun p => '"' :: escString p.1 ++ '"' :: ':' :: ' ' :: dumpsRaw p.2)

/-- `specEntries` after recursive canonicalization and key sorting:
`sorted()` puts the keys in code-point order — `address`, `meta`,
`password`, `schemaVersion`, `tests`, `topo`, `username`. -/
def sortedSpecEntries (s : Spec) : List (List Char × Json) :=
  [("address".data, .str s.address.data),
   ("meta".data, jcanon (metaToJson s.meta)),
   ("password".data, .str s.password.data),
   ("schemaVersion".data, .str s.schemaVersion.data),
   ("tests".data, jcanon (.arr (s.tests.map testToJson))),
   ("topo".data, jcanon (topoToJson s.topo)),
   ("username".data, .str s.username.data)]

lemma jcanon_specToJson (s : Spec) :
    jcanon (specToJson s) = .obj (sortedSpecEntries s) := by
  rw [specToJson, jcanon_obj]
  rw [show (specEntries s).map (fun p => (p.1, jcanon p.2)) =
    [("schemaVersion".data, jcanon (.str s.schemaVersion.data)),
     ("meta".data, jcanon (metaToJson s.meta)),
     ("topo".data, jcanon (topoToJson s.topo)),
     ("tests".data, jcanon (.arr (s.tests.map testToJson))),
     ("username".data, jcanon (.str s.username.data)),
     ("password".data, jcanon (.str s.password.data)),
     ("address".data, jcanon (.str s.address.data))] from rfl]
  rw [jcanon_str, jcanon_str, jcanon_str, jcanon_str]
  rfl

def segA : List Char := '{' :: '"' :: escString "address".data ++ ['"', ':', ' ', '"']

def segB (m : Meta) : List Char :=
  [',', ' ', '"'] ++ escString "meta".data ++ ['"', ':', ' '] ++
  dumpsRaw (jcanon (metaToJson m)) ++ [',', ' ', '"'] ++ escString "password".data ++
  ['"', ':', ' ', '"']

def segC (sv : String) (ts : List TestVariant) (tp : Topology) : List Char :=
  [',', ' ', '"'] ++ escString "schemaVersion".data ++ ['"', ':', ' ', '"'] ++
  escString sv.data ++ ['"', ',', ' ', '"'] ++ escString "tests".data ++ ['"', ':', ' '] ++
  dumpsRaw (jcanon (.arr (ts.map testToJson))) ++ [',', ' ', '"'] ++
  escString "topo".data ++ ['"', ':', ' '] ++ dumpsRaw (jcanon (topoToJson tp)) ++
  [',', ' ', '"'] ++ escString "username".data ++ ['"', ':', ' ', '"']

/-- The canonical bytes of a spec, decomposed around the three escaped
credential strings (which end at their closing quotes). -/
lemma dumps_specToJson (s : Spec) :
    dumps (specToJson s) =
      segA ++ (escString s.address.data ++ '"' ::
      (segB s.meta ++ (escString s.password.data ++ '"' ::
      (segC s.schemaVersion s.tests s.topo ++
        (escString s.username.data ++ '"' :: ['}']))))) := by
  rw [dumps, jcanon_specToJson, dumpsRaw_obj]
  simp only [sortedSpecEntries, List.map_cons, List.map_nil, joinComma, dumpsRaw_str,
    segA, segB, segC, List.append_assoc, List.cons_append, List.nil_append,
    List.append_nil]

/-- Canonical bytes determine the credential fields: specs that agree on
everything else but dump identically are equal. -/
lemma dumps_spec_inj (s1 s2 : Spec) (hsv : s1.schemaVersion = s2.schemaVersion)
    (hm : s1.meta = s2.meta) (htp : s1.topo = s2.topo) (hts : s1.tests = s2.tests)
    (h : dumps (specToJson s1) = dumps (specToJson s2)) : s1 = s2 := by
  rw [dumps_specToJson s1, dumps_specToJson s2, ← hsv, ← hm, ← htp, ← hts] at h
  have h1 := List.append_cancel_left h
  obtain ⟨ha, h2⟩ := escString_append_quote_inj _ _ _ _ h1
  have h3 := List.append_cancel_left h2
  obtain ⟨hp, h4⟩ := escString_append_quote_inj _ _ _ _ h3
  have h5 := List.append_cancel_left h4
  obtain ⟨hu, _⟩ := escString_append_quote_inj _ _ _ _ h5
  have ha2 : s1.address = s2.address := String.ext ha
  have hp2 : s1.password = s2.password := String.ext hp
  have hu2 : s1.username = s2.username := String.ext hu
  calc s1 = ⟨s1.schemaVersion, s1.meta, s1.topo, s1.tests,
      s1.username, s1.password, s1.address⟩ := rfl
    _ = ⟨s2.schemaVersion, s2.meta, s2.topo, s2.tests,
      s2.username, s2.password, s2.address⟩ := by
        rw [hsv, hm, htp, hts, ha2, hp2, hu2]
    _ = s2 := rfl

/-- Top-level field lookup on a JSON object. -/
def jfield (k : List Char) : Json → Option Json
  | .obj kvs => jlookup k kvs
  | _ => none

/-- `parseSpec` fills each absent credential field with `""`
(pydantic `str = ""` defaults). -/
lemma parseSpec_defaults (kvs : List (List Char × Json)) (s : Spec)
    (h : parseSpec (.obj kvs) = some s) :
    (jlookup "username".data kvs = none → s.username = "") ∧
    (jlookup "password".data kvs = none → s.password = "") ∧
    (jlookup "address".data kvs = none → s.address = "") := by
  unfold parseSpec at h
  simp only [Option.bind_eq_some] at h
  obtain ⟨jsv, hjsv, sv, hsv, u, hu, pw, hpw, ad, had, jm, hjm, m, hm, jt, hjt, tp, htp,
    jts, hjts, ts, hts, hfin⟩ := h
  injection hfin with hfin
  refine ⟨?_, ?_, ?_⟩ <;> intro hnone
  · rw [hnone] at hu
    injection hu with hu2
    rw [← hfin]
    show String.mk u = ""
    rw [← hu2]
  · rw [hnone] at hpw
    injection hpw with hpw2
    rw [← hfin]
    show String.mk pw = ""
    rw [← hpw2]
  · rw [hnone] at had
    injection had with had2
    rw [← hfin]
    show String.mk ad = ""
    rw [← had2]

/-- A concrete input with no `username`, `password` or `address` keys. -/
def exKvsNoCred : List (List Char × Json) :=
  [("schemaVersion".data, .str "1.0".data),
   ("meta".data, metaToJson exMeta),
   ("topo".data, topoToJson exC4.topo),
   ("tests".data, .arr (exC4.tests.map testToJson))]

/-- C10: the schema accepts optional top-level `username`, `password` and
`address` fields, each defaulting to `""` when absent; the credential
fields always appear in the normalized spec and are part of the canonical
bytes over which `schema_hash` is computed, so two inputs identical except
for a credential field yield different canonical byte encodings. -/
theorem claim_C10 :
    (∀ (kvs : List (List Char × Json)) (s : Spec), parseSpec (.obj kvs) = some s →
      (jlookup "username".data kvs = none → s.username = "") ∧
      (jlookup "password".data kvs = none → s.password = "") ∧
      (jlookup "address".data kvs = none → s.address = "")) ∧
    parseSpec (.obj exKvsNoCred) = some exC4 ∧
    (∀ s : Spec,
      jfield "username".data (normalize s) = some (.str s.username.data) ∧
      jfield "password".data (normalize s) = some (.str s.password.data) ∧
      jfield "address".data (normalize s) = some (.str s.address.data)) ∧
    (∀ s1 s2 : Spec, s1.schemaVersion = s2.schemaVersion → s1.meta = s2.meta →
      s1.topo = s2.topo → s1.tests = s2.tests → s1 ≠ s2 →
      dumps (specToJson s1) ≠ dumps (specToJson s2)) := by
  refine ⟨parseSpec_defaults, by decide, fun s => ⟨rfl, rfl, rfl⟩, ?_⟩
  intro s1 s2 hsv hm htp hts hne h
  exact hne (dumps_spec_inj s1 s2 hsv hm htp hts h)

end Omen
